import Mathlib

/-!
# oom-tracer: the event correlation and action engine

A shallow embedding of `pkg/oomtracer/oomtracer.go` and of the nil-tolerant
counter methods of `pkg/metrics/metrics.go`.

Modelling conventions

* A Go `string` is its sequence of bytes, `List Nat` with every element below 256.
  String equality in Go is byte equality, and the two regular expressions of
  the package only use ASCII classes, so they act byte by byte.
* An `int8` is an `Int` in `[-128, 127]`; the conversion `byte(v)` is `v % 256`.
* A Go map `map[string]string` is an association list; `_, ok := m[k]` is
  `(m.lookup k).isSome`.
* The external collaborators (ring buffer reader, pod lister, annotation patcher)
  are given by the answers they return; every call the engine issues is
  appended to a call log carried in the state.
* The functions of the Go libraries the package calls (`regexp`, `strings.TrimSpace`,
  `strings.SplitN`, `strings.ReplaceAll`, `unix.ByteSliceToString`) are written out
  from their documented behaviour. `strings.TrimSpace` removes the UTF-8 encodings
  of the runes with `unicode.IsSpace`, first from the front, then from the back.
* The `klog` calls have no effect on the state and are left out.

The file has three parts: the embedding of the source, the vocabulary of the
statements (with sample data), and the theorems.
-/

namespace OomTracer

/-! ## Go strings -/

/-- A Go string: the list of its bytes. -/
abbrev GoString := List Nat

/-- UTF-8 encoding of one code point, as the Go compiler stores a rune of a string literal. -/
def utf8Bytes (c : Char) : List Nat :=
  let n := c.toNat
  if n < 0x80 then [n]
  else if n < 0x800 then [0xC0 + n / 64, 0x80 + n % 64]
  else if n < 0x10000 then [0xE0 + n / 4096, 0x80 + n / 64 % 64, 0x80 + n % 64]
  else [0xF0 + n / 262144, 0x80 + n / 4096 % 64, 0x80 + n / 64 % 64, 0x80 + n % 64]

/-- The Go string written as the literal `s`. -/
def str (s : String) : GoString := s.data.flatMap utf8Bytes

/-- Every element of a Go string is a byte. -/
def IsBytes (s : GoString) : Prop := ∀ b ∈ s, b < 256

/-- A Go error value, identified by its message. -/
abbrev GoError := String

deriving instance DecidableEq for Except

/-! ## Decoding of fixed-length `int8` buffers (oomtracer.go, lines 226-247) -/

/-- The Go conversion `byte(v)` of an `int8` value `v`. -/
def byte (v : Int) : Nat := (v % 256).toNat

/-- Range of the Go type `int8`. -/
def IsInt8 (v : Int) : Prop := -128 ≤ v ∧ v ≤ 127

/-- Function `unix.ByteSliceToString`: the bytes before the first NUL, or all of them. -/
def ByteSliceToString (s : List Nat) : GoString := s.takeWhile (fun b => b != 0)

/-- Function `Int8SliceToString`: converts every element with `byte`, then cuts at the first NUL. -/
def Int8SliceToString (src : List Int) : GoString :=
  let b := src.map byte
  ByteSliceToString b

/-- Function `Int8SliceToStringSlice`: the same decoding for every 128-byte slot, in order. -/
def Int8SliceToStringSlice (src : List (List Int)) : List GoString :=
  src.map (fun x =>
    let b := x.map byte
    ByteSliceToString b)

/-- The `int8` holding the byte `b` (two's complement), the inverse of `byte`. -/
def toInt8 (b : Nat) : Int := if b < 128 then (b : Int) else (b : Int) - 256

/-- A string stored in a fixed-length `int8` buffer of `n` elements, NUL padded. -/
def encodeInt8 (n : Nat) (s : GoString) : List Int :=
  s.map toInt8 ++ List.replicate (n - s.length) 0

/-! ## The two patterns (oomtracer.go, lines 223-224) -/

/-- Class `[a-f0-9]`. -/
def isHexByte (b : Nat) : Bool := (0x61 ≤ b && b ≤ 0x66) || (0x30 ≤ b && b ≤ 0x39)

/-- Class `[a-f0-9_-]`. -/
def isPodIdByte (b : Nat) : Bool := isHexByte b || b == 0x5F || b == 0x2D

/-- The bytes of the literal `pod`. -/
def podBytes : GoString := [0x70, 0x6F, 0x64]

/-- Capture group 1 of `podPattern.FindStringSubmatch`, for the pattern
`pod([a-f0-9_-]+)`: at the leftmost position where `pod` is followed by a class byte,
the longest run of class bytes after it; `none` when the pattern does not match. -/
def podPatternSubmatch : GoString → Option GoString
  | [] => none
  | b :: t =>
    let s := b :: t
    let run := (s.drop 3).takeWhile isPodIdByte
    if s.take 3 = podBytes ∧ run ≠ [] then some run else podPatternSubmatch t

/-- Result of `cidPattern.FindStringSubmatch(s)[0]`, for the pattern `[a-f0-9]{64}`:
the leftmost run of 64 class bytes; `none` when there is none. -/
def cidPatternFind : GoString → Option GoString
  | [] => none
  | b :: t =>
    let w := (b :: t).take 64
    if w.length = 64 ∧ w.all isHexByte = true then some w else cidPatternFind t

/-- Method `cidPattern.FindString`: the match, or the empty string. -/
def cidPatternFindString (s : GoString) : GoString := (cidPatternFind s).getD []

/-- Function `strings.ReplaceAll(s, "_", "-")`. -/
def replaceUnderscores (s : GoString) : GoString := s.map (fun b => if b = 0x5F then 0x2D else b)

/-! ## Pods and identities -/

/-- A Go `map[string]string`, as an association list. -/
abbrev StringMap := List (GoString × GoString)

/-- Struct `corev1.ContainerStatus`, reduced to the field the tracer reads. -/
structure ContainerStatus where
  ContainerID : GoString
  deriving DecidableEq

/-- Struct `corev1.PodStatus`, reduced to the three status lists. -/
structure PodStatus where
  ContainerStatuses : List ContainerStatus
  InitContainerStatuses : List ContainerStatus
  EphemeralContainerStatuses : List ContainerStatus
  deriving DecidableEq

/-- Struct `corev1.Pod`, reduced to the fields the tracer reads. -/
structure Pod where
  Namespace : GoString
  Name : GoString
  UID : GoString
  Annotations : StringMap
  Status : PodStatus
  deriving DecidableEq

/-- Struct `ID`: the identity of the pod that is the victim of an OOM kill. -/
structure ID where
  Namespace : GoString
  Name : GoString
  UID : GoString
  Annotations : StringMap
  deriving DecidableEq

/-- The `ID` literal that `LookupPod` builds from a pod (lines 194-199 and 205). -/
def Pod.toID (pod : Pod) : ID :=
  { Namespace := pod.Namespace, Name := pod.Name, UID := pod.UID, Annotations := pod.Annotations }

/-- One of the three inner loops of `LookupPod` (lines 203-207): some status of the
list has a container id whose `cidPattern` match is non-empty and equals `target`. -/
def statusMatches (target : GoString) (statuses : List ContainerStatus) : Bool :=
  statuses.any (fun status =>
    let live := cidPatternFindString status.ContainerID
    live != [] && live == target)

/-- The loop `for _, pod := range pods` of `LookupPod` (lines 190-219). -/
def lookupLoop (podUIDMatch containerIDMatch : Option GoString) : List Pod → Option ID
  | [] => none
  | pod :: pods =>
    match podUIDMatch with
    | some m =>
      let podUID := replaceUnderscores m
      if pod.UID = podUID then some pod.toID
      else lookupLoop podUIDMatch containerIDMatch pods
    | none =>
      match containerIDMatch with
      | some target =>
        if statusMatches target pod.Status.ContainerStatuses then some pod.toID
        else if statusMatches target pod.Status.InitContainerStatuses then some pod.toID
        else if statusMatches target pod.Status.EphemeralContainerStatuses then some pod.toID
        else lookupLoop podUIDMatch containerIDMatch pods
      | none => lookupLoop podUIDMatch containerIDMatch pods

/-- Function `LookupPod` (lines 183-221). -/
def LookupPod (pcid : GoString) (pods : List Pod) : Option ID :=
  let podUIDMatch := podPatternSubmatch pcid
  let containerIDMatch := cidPatternFind pcid
  if podUIDMatch = none ∧ containerIDMatch = none then none
  else lookupLoop podUIDMatch containerIDMatch pods

/-- The candidate loop of `TraceKernelOOMKills` (lines 130-139): empty candidates are
skipped, `LookupPod` is called on the others in order, the first non-nil result wins. -/
def resolveCandidates (pods : List Pod) : List GoString → Option ID
  | [] => none
  | s :: rest =>
    if s = [] then resolveCandidates pods rest
    else
      match LookupPod s pods with
      | some id => some id
      | none => resolveCandidates pods rest

/-! ## The metrics sink (metrics.go, lines 56-81) -/

/-- A `prometheus.CounterVec` with the labels `stage` and `reason`: the label pairs it
was incremented with, oldest first. -/
abbrev CounterVec := List (GoString × GoString)

/-- Value of the counter with the labels `(stage, reason)`. -/
def CounterVec.value (v : CounterVec) (stage reason : GoString) : Nat :=
  v.count (stage, reason)

/-- Struct `Metrics`, reduced to its two counter vectors. -/
structure Metrics where
  events : CounterVec
  markedVictims : CounterVec
  deriving DecidableEq

/-- Function `increment`: an empty stage counts as `unknown`, an empty reason as `none`. -/
def increment (counterVec : CounterVec) (stage reason : GoString) : CounterVec :=
  let stage := if stage = [] then str "unknown" else stage
  let reason := if reason = [] then str "none" else reason
  counterVec ++ [(stage, reason)]

/-- Method `IncEvent`; the receiver is `none` for a nil `*Metrics`. -/
def IncEvent (m : Option Metrics) (stage reason : GoString) : Option Metrics :=
  match m with
  | none => none
  | some m => some { m with events := increment m.events stage reason }

/-- Method `IncMarkedVictim`; the receiver is `none` for a nil `*Metrics`. -/
def IncMarkedVictim (m : Option Metrics) (stage reason : GoString) : Option Metrics :=
  match m with
  | none => none
  | some m => some { m with markedVictims := increment m.markedVictims stage reason }

/-! ## The tracer and its collaborators -/

/-- Struct `bpfEvent`, the decoded kernel record. Its declaration is generated by
`bpf2go` and is not part of the sources; the fields are those the tracer reads. -/
structure BpfEvent where
  TriggerPid : Nat
  VictimPid : Nat
  Totalpages : Nat
  GlobalOom : Bool
  TriggerComm : List Int
  VictimComm : List Int
  Names : List (List Int)
  deriving DecidableEq

/-- Struct `OOMTracer`. The fields `k8s` and `metrics` are pointers to collaborators:
the first is the `K8s` of each iteration, the second the `metrics` field of `State`. -/
structure OOMTracer where
  nodeName : GoString
  victimAnnotationKey : GoString
  victimAnnotationVal : GoString
  ignoreGlobalOOM : Bool
  deriving DecidableEq

/-- Answers of the cluster collaborator (`pkg/k8s`) during one iteration: the result
of `ListPodsOnANode(nodeName, nil)` and the error of `AnnotatePod` (`none` is nil). -/
structure K8s where
  ListPodsOnANode : GoString → Except GoError (List Pod)
  AnnotatePod : GoString → GoString → StringMap → Option GoError

/-- A call issued by the engine to one of its collaborators. -/
inductive Call where
  | read
  | listPods (nodeName : GoString)
  | annotatePod (namespace_ name : GoString) (annotations : StringMap)
  | incEvent (stage reason : GoString)
  | incMarkedVictim (stage reason : GoString)
  deriving DecidableEq

/-- State threaded through the loop: the metrics sink the tracer points to (`none` for
a nil pointer) and the log of the calls issued so far, oldest first. -/
structure State where
  metrics : Option Metrics
  calls : List Call
  deriving DecidableEq

/-- Call `o.metrics.IncEvent(stage, reason)`. -/
def State.incEvent (s : State) (stage reason : GoString) : State :=
  { metrics := IncEvent s.metrics stage reason, calls := s.calls ++ [Call.incEvent stage reason] }

/-- Call `o.metrics.IncMarkedVictim(stage, reason)`. -/
def State.incMarkedVictim (s : State) (stage reason : GoString) : State :=
  { metrics := IncMarkedVictim s.metrics stage reason,
    calls := s.calls ++ [Call.incMarkedVictim stage reason] }

/-- Records a call to the reader or to the cluster collaborator. -/
def State.call (s : State) (c : Call) : State :=
  { s with calls := s.calls ++ [c] }

def eventStageObserved : GoString := str "observed"

def eventStageIdentified : GoString := str "identified"

def eventStageSkipped : GoString := str "skipped"

def eventStageError : GoString := str "error"

def victimStageMarked : GoString := str "marked"

def victimStageSkipped : GoString := str "skipped"

/-- How one iteration of the loop ends: `continue`, or `return err`. -/
inductive Control where
  | next
  | ret (err : GoError)
  deriving DecidableEq

/-- Body of the loop of `TraceKernelOOMKills` for a decoded event (lines 103-179).
The `klog` calls are left out. `candidates` is built by `make`, hence never nil: it
is `some` list, and the test `candidates != nil` of line 124 is the `match` on it. -/
def processEvent (o : OOMTracer) (k8s : K8s) (event : BpfEvent) (s : State) : State × Control :=
  let s := s.incEvent eventStageObserved (str "ebpf_capture")
  let candidates : Option (List GoString) := some (Int8SliceToStringSlice event.Names)
  if !o.ignoreGlobalOOM && !event.GlobalOom then
    (s.incEvent eventStageSkipped (str "non_or_ignored_global_oom"), Control.next)
  else
    match candidates with
    | none => (s, Control.next)
    | some candidates =>
      let s := s.call (Call.listPods o.nodeName)
      match k8s.ListPodsOnANode o.nodeName with
      | Except.error err => (s, Control.ret err)
      | Except.ok pods =>
        match resolveCandidates pods candidates with
        | none => (s.incEvent eventStageSkipped (str "no_pod_match"), Control.next)
        | some id =>
          let s := s.incEvent eventStageIdentified (str "pod_identified")
          if o.victimAnnotationKey ≠ [] then
            if (id.Annotations.lookup o.victimAnnotationKey).isSome = false then
              let annotations : StringMap := [(o.victimAnnotationKey, o.victimAnnotationVal)]
              let s := s.call (Call.annotatePod id.Namespace id.Name annotations)
              match k8s.AnnotatePod id.Namespace id.Name annotations with
              | some _ => (s.incEvent eventStageError (str "annotation_failed"), Control.next)
              | none => (s.incMarkedVictim victimStageMarked (str "annotation_applied"), Control.next)
            else
              (s.incMarkedVictim victimStageSkipped (str "annotation_exists"), Control.next)
          else (s, Control.next)

/-- Result of `rd.Read()`: the closed error, another error, or a record. -/
inductive ReadResult where
  | errClosed
  | errOther (err : GoError)
  | record (RawSample : GoString)
  deriving DecidableEq

/-- What the collaborators answer during one iteration of the loop. -/
structure Turn where
  read : ReadResult
  k8s : K8s

/-- Outcome of running the loop on a finite sequence of reads: still blocked in
`rd.Read()`, or returned with an error value (`none` is a nil error). -/
inductive LoopResult where
  | running
  | returned (err : Option GoError)
  deriving DecidableEq

/-- The loop `for { ... }` of `TraceKernelOOMKills` (lines 87-180), run on the reads
of `turns`. `decode` is `binary.Read` into a `BpfEvent` (`none` when it fails), whose
layout is generated code; `ctxErr` is the value of `ctx.Err()`. -/
def traceLoop (o : OOMTracer) (decode : GoString → Option BpfEvent) (ctxErr : Option GoError) :
    List Turn → State → State × LoopResult
  | [], s => (s, LoopResult.running)
  | t :: turns, s =>
    let s := s.call Call.read
    match t.read with
    | ReadResult.errClosed => (s, LoopResult.returned ctxErr)
    | ReadResult.errOther _ => traceLoop o decode ctxErr turns s
    | ReadResult.record raw =>
      match decode raw with
      | none => traceLoop o decode ctxErr turns s
      | some event =>
        match processEvent o t.k8s event s with
        | (s, Control.next) => traceLoop o decode ctxErr turns s
        | (s, Control.ret err) => (s, LoopResult.returned (some err))

/-- Method `TraceKernelOOMKills` (lines 72-181): `loadErr` is the error of `ebpf.LoadBPF`. -/
def TraceKernelOOMKills (o : OOMTracer) (loadErr : Option GoError)
    (decode : GoString → Option BpfEvent) (ctxErr : Option GoError)
    (turns : List Turn) (s : State) : State × LoopResult :=
  match loadErr with
  | some err => (s, LoopResult.returned (some err))
  | none => traceLoop o decode ctxErr turns s

/-! ## Parsing of the victim annotation (oomtracer.go, lines 56-70 and 249-264) -/

/-- Code points for which `unicode.IsSpace` holds. -/
def spaceCodePoints : List Nat :=
  [0x09, 0x0A, 0x0B, 0x0C, 0x0D, 0x20, 0x85, 0xA0, 0x1680,
   0x2000, 0x2001, 0x2002, 0x2003, 0x2004, 0x2005, 0x2006, 0x2007, 0x2008, 0x2009, 0x200A,
   0x2028, 0x2029, 0x202F, 0x205F, 0x3000]

/-- UTF-8 encodings of the white space runes. -/
def spaceRunes : List GoString := spaceCodePoints.map (fun n => utf8Bytes (Char.ofNat n))

/-- Removes the rune of `table` the string starts with, if there is one. -/
def stripRune (table : List GoString) (s : GoString) : Option GoString :=
  table.findSome? (fun e => if e.isPrefixOf s then some (s.drop e.length) else none)

/-- At most `n` removals of a leading rune of `table`. -/
def trimN (table : List GoString) : Nat → GoString → GoString
  | 0, s => s
  | n + 1, s =>
    match stripRune table s with
    | some r => trimN table n r
    | none => s

/-- Function `strings.TrimLeftFunc(s, unicode.IsSpace)`: the leading white space runes
are removed one by one, as long as the string starts with one. -/
def TrimLeft (s : GoString) : GoString := trimN spaceRunes s.length s

/-- Function `strings.TrimRightFunc(s, unicode.IsSpace)`: the trailing white space runes
are removed one by one; read backwards, the string loses its leading reversed runes. -/
def TrimRight (s : GoString) : GoString :=
  (trimN (spaceRunes.map List.reverse) s.length s.reverse).reverse

/-- Function `strings.TrimSpace`: all leading and trailing white space runes removed.
A byte that is not part of the encoding of a white space rune stops the trimming. -/
def TrimSpace (s : GoString) : GoString := TrimRight (TrimLeft s)

/-- Function `strings.SplitN(s, sep, n)` for a separator of one byte and `n ≥ 0`: at
most `n` pieces, the last one holding the unsplit remainder. -/
def SplitN (sep : Nat) : Nat → GoString → List GoString
  | 0, _ => []
  | 1, s => [s]
  | n + 2, s =>
    match s.span (fun b => b != sep) with
    | (_, []) => [s]
    | (a, _ :: b) => a :: SplitN sep (n + 1) b

/-- Errors of `parseAnnotation`: `invalid annotation %q, expected key=value` and
`annotation key cannot be empty`. -/
inductive AnnotationError where
  | invalid (raw : GoString)
  | emptyKey
  deriving DecidableEq

/-- Function `parseAnnotation` (lines 249-264). -/
def parseAnnotation (raw : GoString) : Except AnnotationError (GoString × GoString) :=
  let value := TrimSpace raw
  if value = [] then Except.ok ([], [])
  else
    let parts := SplitN 0x3D 2 value
    match parts with
    | [p0, p1] =>
      let key := TrimSpace p0
      let val := TrimSpace p1
      if key = [] then Except.error AnnotationError.emptyKey
      else Except.ok (key, val)
    | _ => Except.error (AnnotationError.invalid raw)

/-- Function `NewOOMTracer` (lines 56-70). -/
def NewOOMTracer (nodeName : GoString) ( victimAnnotation : GoString) (ignoreGlobalOOM : Bool) :
    Except AnnotationError OOMTracer :=
  match parseAnnotation victimAnnotation with
  | Except.error err => Except.error err
  | Except.ok (key, val) =>
    Except.ok
      { nodeName := nodeName
        victimAnnotationKey := key
        victimAnnotationVal := val
        ignoreGlobalOOM := ignoreGlobalOOM }

instance (v : Int) : Decidable (IsInt8 v) := by unfold IsInt8; infer_instance
instance (s : GoString) : Decidable (IsBytes s) := by unfold IsBytes; infer_instance

/-! ## Vocabulary of the statements -/

/-- The calls issued between the state `s` and the later state `s'`. -/
def newCalls (s s' : State) : List Call := s'.calls.drop s.calls.length

/-- The gate of line 118 is closed for the event. -/
def gateClosed (o : OOMTracer) (event : BpfEvent) : Prop :=
  o.ignoreGlobalOOM = false ∧ event.GlobalOom = false

instance (o : OOMTracer) (event : BpfEvent) : Decidable (gateClosed o event) := by
  unfold gateClosed; infer_instance

/-- The call is a `ListPodsOnANode` call. -/
def Call.isListPods : Call → Bool
  | Call.listPods _ => true
  | _ => false

/-- The call is an `AnnotatePod` call. -/
def Call.isAnnotatePod : Call → Bool
  | Call.annotatePod _ _ _ => true
  | _ => false

/-- The call increments a counter of the metrics sink. -/
def Call.isMetric : Call → Bool
  | Call.incEvent _ _ => true
  | Call.incMarkedVictim _ _ => true
  | _ => false

/-- The state reached by the events that pass the gate and resolve to a pod: after
the `observed` increment, the listing and the `identified` increment. -/
def State.identified (o : OOMTracer) (s : State) : State :=
  ((s.incEvent eventStageObserved (str "ebpf_capture")).call
    (Call.listPods o.nodeName)).incEvent eventStageIdentified (str "pod_identified")


/-- The two events processed one after the other; the state after the second. -/
def processTwo (o : OOMTracer) (k1 k2 : K8s) (e1 e2 : BpfEvent) (s : State) : State :=
  (processEvent o k2 e2 (processEvent o k1 e1 s).1).1

/-- The `AnnotatePod` calls of a call log. -/
def patchCalls (cs : List Call) : List Call := cs.filter Call.isAnnotatePod

/-- A run of 64 bytes of the class `[a-f0-9]`. -/
def IsHex64 (t : GoString) : Prop := t.length = 64 ∧ ∀ b ∈ t, isHexByte b = true

instance (t : GoString) : Decidable (IsHex64 t) := by unfold IsHex64; infer_instance

/-- The string `t` is the leftmost 64-character lowercase hexadecimal substring of `s`. -/
def IsLeftmostHex64 (s t : GoString) : Prop :=
  IsHex64 t ∧ ∃ a b, s = a ++ t ++ b ∧
    ∀ a' t' b', s = a' ++ t' ++ b' → IsHex64 t' → a.length ≤ a'.length

/-- All container statuses of a pod: regular, then init, then ephemeral. -/
def Pod.allStatuses (pod : Pod) : List ContainerStatus :=
  pod.Status.ContainerStatuses ++ pod.Status.InitContainerStatuses ++
    pod.Status.EphemeralContainerStatuses

/-- Some container status of the pod has a container id in which `cidPattern` finds `target`. -/
def Pod.hasContainer (target : GoString) (pod : Pod) : Bool :=
  pod.allStatuses.any (fun status => cidPatternFind status.ContainerID == some target)

/-- The hex id that ends a container runtime identifier: its last 64 bytes, when they
are of the class `[a-f0-9]`. -/
def trailingHexId (cid : GoString) : Option GoString :=
  let w := cid.drop (cid.length - 64)
  if w.length = 64 ∧ w.all isHexByte = true then some w else none


/-- The string `tok` is what the group of `pod([a-f0-9_-]+)` captures in `s`: the longest
run of class bytes after the leftmost `pod` that is followed by a class byte. -/
def IsPodCapture (s tok : GoString) : Prop :=
  ∃ a rest, s = a ++ podBytes ++ tok ++ rest ∧ tok ≠ [] ∧ (∀ b ∈ tok, isPodIdByte b = true) ∧
    (∀ c r, rest = c :: r → isPodIdByte c = false) ∧
    ∀ a' c r', s = a' ++ podBytes ++ c :: r' → isPodIdByte c = true → a.length ≤ a'.length


/-- Some container status of the pod (regular, init or ephemeral) has a container id
whose leftmost 64-character hex substring is `target`. -/
def Pod.HasHexId (target : GoString) (pod : Pod) : Prop :=
  ∃ status ∈ pod.allStatuses, IsLeftmostHex64 status.ContainerID target

/-! ## Sample data -/

/-- A run of 64 bytes `a`. -/
def hexA : GoString := List.replicate 64 0x61

/-- A run of 64 bytes `b`. -/
def hexB : GoString := List.replicate 64 0x62

/-- A pod status without any container status. -/
def noStatus : PodStatus :=
  { ContainerStatuses := [], InitContainerStatuses := [], EphemeralContainerStatuses := [] }

/-- A pod with the UID `1234-5678-abcd`, no annotation and no container status. -/
def podPlain : Pod :=
  { Namespace := str "default", Name := str "victim", UID := str "1234-5678-abcd",
    Annotations := [], Status := noStatus }

/-- The same pod, already carrying the annotation `evict` with the value `soon`. -/
def podMarked : Pod := { podPlain with Annotations := [(str "evict", str "soon")] }

/-- A pod whose init container has the container id `containerd://` followed by `hexA`. -/
def podInit : Pod :=
  { podPlain with
    Name := str "init", UID := str "aa-01",
    Status := { noStatus with InitContainerStatuses := [⟨str "containerd://" ++ hexA⟩] } }

/-- A pod whose container id holds two runs of hex bytes: `hexA`, then `/`, then `hexB`. -/
def podTwoRuns : Pod :=
  { podPlain with
    Name := str "two", UID := str "bb-02",
    Status := { noStatus with
                ContainerStatuses := [⟨str "docker://" ++ hexA ++ str "/" ++ hexB⟩] } }


/-- A tracer with the annotation key `evict`, an empty value and the gate active. -/
def tracerEvict : OOMTracer :=
  { nodeName := str "node-1", victimAnnotationKey := str "evict", victimAnnotationVal := [],
    ignoreGlobalOOM := false }

/-- A global OOM event whose only candidate is `pod1234_5678-abcd`. -/
def eventGlobal : BpfEvent :=
  { TriggerPid := 1, VictimPid := 4242, Totalpages := 1000, GlobalOom := true,
    TriggerComm := encodeInt8 16 (str "stress"), VictimComm := encodeInt8 16 (str "stress"),
    Names := [encodeInt8 128 (str "pod1234_5678-abcd")] }

/-- The same event, not global. -/
def eventLocal : BpfEvent := { eventGlobal with GlobalOom := false }

/-- A cluster that lists `pods` and accepts every patch. -/
def clusterOk (pods : List Pod) : K8s :=
  { ListPodsOnANode := fun _ => Except.ok pods, AnnotatePod := fun _ _ _ => none }

/-- A cluster that lists `pods` and rejects every patch. -/
def clusterPatchFails (pods : List Pod) : K8s :=
  { ListPodsOnANode := fun _ => Except.ok pods, AnnotatePod := fun _ _ _ => some "patch failed" }

/-- A cluster whose pod listing fails. -/
def clusterListFails : K8s :=
  { ListPodsOnANode := fun _ => Except.error "list failed", AnnotatePod := fun _ _ _ => none }

/-- The initial state with a nil sink. -/
def stateNoSink : State := { metrics := none, calls := [] }

/-- The initial state with a sink whose counters are all zero. -/
def stateSink : State := { metrics := some { events := [], markedVictims := [] }, calls := [] }

/-- The two counter vectors of the sink: `events_total` and `marked_victims_total`. -/
inductive Family where
  | events
  | markedVictims
  deriving DecidableEq

/-- Value of the counter `(stage, reason)` of a counter vector of the sink. -/
def Metrics.value (m : Metrics) (f : Family) (stage reason : GoString) : Nat :=
  match f with
  | Family.events => m.events.value stage reason
  | Family.markedVictims => m.markedVictims.value stage reason

/-- Effect of a call on the sink: the two counter methods, nothing for the other calls. -/
def applyCall (m : Option Metrics) : Call → Option Metrics
  | Call.incEvent stage reason => IncEvent m stage reason
  | Call.incMarkedVictim stage reason => IncMarkedVictim m stage reason
  | _ => m

/-- The terminal outcomes of an event. -/
inductive Outcome where
  | gated
  | noPodMatch
  | dryRun
  | markApplied
  | markSkipped
  | patchError
  deriving DecidableEq

/-- The labeled counter of a terminal outcome. -/
def Outcome.counter : Outcome → Family × GoString × GoString
  | Outcome.gated => (Family.events, str "skipped", str "non_or_ignored_global_oom")
  | Outcome.noPodMatch => (Family.events, str "skipped", str "no_pod_match")
  | Outcome.dryRun => (Family.events, str "identified", str "pod_identified")
  | Outcome.markApplied => (Family.markedVictims, str "marked", str "annotation_applied")
  | Outcome.markSkipped => (Family.markedVictims, str "skipped", str "annotation_exists")
  | Outcome.patchError => (Family.events, str "error", str "annotation_failed")

/-- The call that increments the counter of a terminal outcome. -/
def Outcome.terminalCall (out : Outcome) : Call :=
  match out.counter with
  | (Family.events, stage, reason) => Call.incEvent stage reason
  | (Family.markedVictims, stage, reason) => Call.incMarkedVictim stage reason

/-- The stage records that precede the terminal one: `observed`, and `identified` for
the outcomes of the annotation step. -/
def Outcome.stageCalls : Outcome → List Call
  | Outcome.markApplied | Outcome.markSkipped | Outcome.patchError =>
    [Call.incEvent (str "observed") (str "ebpf_capture"),
     Call.incEvent (str "identified") (str "pod_identified")]
  | _ => [Call.incEvent (str "observed") (str "ebpf_capture")]

/-- The turn ends the loop: its read fails with the closed error, or its record decodes
to an event that passes the gate and whose pod listing fails. -/
def stops (o : OOMTracer) (decode : GoString → Option BpfEvent) (t : Turn) : Bool :=
  match t.read with
  | ReadResult.errClosed => true
  | ReadResult.errOther _ => false
  | ReadResult.record raw =>
    match decode raw with
    | none => false
    | some event =>
      if o.ignoreGlobalOOM = false ∧ event.GlobalOom = false then false
      else
        match t.k8s.ListPodsOnANode o.nodeName with
        | Except.error _ => true
        | Except.ok _ => false

/-- Number of `rd.Read()` calls of a call log. -/
def readCount (cs : List Call) : Nat := cs.count Call.read

/-- A decoder for the sample events: the record `[1]` is the global event, `[2]` the
local one, every other record fails to decode. -/
def decodeSample (raw : GoString) : Option BpfEvent :=
  if raw = [1] then some eventGlobal else if raw = [2] then some eventLocal else none

/-- The string consists of white space runes only (the empty string included). -/
def OnlySpace (s : GoString) : Prop :=
  ∃ ws : List GoString, (∀ w ∈ ws, w ∈ spaceRunes) ∧ s = ws.flatten

/-- The text before the first `=` of a string. -/
def beforeEq (s : GoString) : GoString := s.takeWhile (fun b => b != 0x3D)

/-- The text after the first `=` of a string. -/
def afterEq (s : GoString) : GoString := (s.dropWhile (fun b => b != 0x3D)).drop 1

/-- A rune table is a code: no rune is empty and none starts another. -/
def IsCode (table : List GoString) : Prop :=
  (∀ e ∈ table, e ≠ []) ∧ ∀ e ∈ table, ∀ e' ∈ table, e <+: e' → e = e'

/-- Generic trimming: leading runes of `table` removed as long as there is one. -/
def trim (table : List GoString) (s : GoString) : GoString := trimN table s.length s

/-- The white space runes read backwards. -/
def revRunes : List GoString := spaceRunes.map List.reverse

/-- The pod with its three container status lists emptied. -/
def Pod.withoutStatuses (pod : Pod) : Pod := { pod with Status := noStatus }

/-! ## One iteration, case by case -/

theorem gate_open_iff (o : OOMTracer) (event : BpfEvent) :
    ¬ gateClosed o event ↔ (!o.ignoreGlobalOOM && !event.GlobalOom) = false := by
  unfold gateClosed
  cases o.ignoreGlobalOOM <;> cases event.GlobalOom <;> simp

theorem processEvent_gated (o : OOMTracer) (k8s : K8s) (event : BpfEvent) (s : State)
    (h : gateClosed o event) :
    processEvent o k8s event s =
      ((s.incEvent eventStageObserved (str "ebpf_capture")).incEvent eventStageSkipped
        (str "non_or_ignored_global_oom"), Control.next) := by
  simp [processEvent, h.1, h.2]

theorem processEvent_listError (o : OOMTracer) (k8s : K8s) (event : BpfEvent) (s : State)
    (h : ¬ gateClosed o event) (err : GoError)
    (hl : k8s.ListPodsOnANode o.nodeName = Except.error err) :
    processEvent o k8s event s =
      ((s.incEvent eventStageObserved (str "ebpf_capture")).call (Call.listPods o.nodeName),
        Control.ret err) := by
  simp [processEvent, (gate_open_iff o event).1 h, hl]

theorem processEvent_noMatch (o : OOMTracer) (k8s : K8s) (event : BpfEvent) (s : State)
    (h : ¬ gateClosed o event) (pods : List Pod)
    (hl : k8s.ListPodsOnANode o.nodeName = Except.ok pods)
    (hr : resolveCandidates pods (Int8SliceToStringSlice event.Names) = none) :
    processEvent o k8s event s =
      (((s.incEvent eventStageObserved (str "ebpf_capture")).call
          (Call.listPods o.nodeName)).incEvent eventStageSkipped (str "no_pod_match"),
        Control.next) := by
  simp [processEvent, (gate_open_iff o event).1 h, hl, hr]

theorem processEvent_dryRun (o : OOMTracer) (k8s : K8s) (event : BpfEvent) (s : State)
    (h : ¬ gateClosed o event) (pods : List Pod) (id : ID)
    (hl : k8s.ListPodsOnANode o.nodeName = Except.ok pods)
    (hr : resolveCandidates pods (Int8SliceToStringSlice event.Names) = some id)
    (hk : o.victimAnnotationKey = []) :
    processEvent o k8s event s = (s.identified o, Control.next) := by
  simp [processEvent, (gate_open_iff o event).1 h, hl, hr, hk, State.identified]

theorem processEvent_exists (o : OOMTracer) (k8s : K8s) (event : BpfEvent) (s : State)
    (h : ¬ gateClosed o event) (pods : List Pod) (id : ID)
    (hl : k8s.ListPodsOnANode o.nodeName = Except.ok pods)
    (hr : resolveCandidates pods (Int8SliceToStringSlice event.Names) = some id)
    (hk : o.victimAnnotationKey ≠ [])
    (ha : (id.Annotations.lookup o.victimAnnotationKey).isSome = true) :
    processEvent o k8s event s =
      ((s.identified o).incMarkedVictim victimStageSkipped (str "annotation_exists"),
        Control.next) := by
  simp [processEvent, (gate_open_iff o event).1 h, hl, hr, hk, ha, State.identified]

theorem processEvent_patchError (o : OOMTracer) (k8s : K8s) (event : BpfEvent) (s : State)
    (h : ¬ gateClosed o event) (pods : List Pod) (id : ID)
    (hl : k8s.ListPodsOnANode o.nodeName = Except.ok pods)
    (hr : resolveCandidates pods (Int8SliceToStringSlice event.Names) = some id)
    (hk : o.victimAnnotationKey ≠ [])
    (ha : (id.Annotations.lookup o.victimAnnotationKey).isSome = false) (err : GoError)
    (hp : k8s.AnnotatePod id.Namespace id.Name
      [(o.victimAnnotationKey, o.victimAnnotationVal)] = some err) :
    processEvent o k8s event s =
      (((s.identified o).call (Call.annotatePod id.Namespace id.Name
          [(o.victimAnnotationKey, o.victimAnnotationVal)])).incEvent eventStageError
          (str "annotation_failed"), Control.next) := by
  simp [processEvent, (gate_open_iff o event).1 h, hl, hr, hk, ha, hp, State.identified]

theorem processEvent_applied (o : OOMTracer) (k8s : K8s) (event : BpfEvent) (s : State)
    (h : ¬ gateClosed o event) (pods : List Pod) (id : ID)
    (hl : k8s.ListPodsOnANode o.nodeName = Except.ok pods)
    (hr : resolveCandidates pods (Int8SliceToStringSlice event.Names) = some id)
    (hk : o.victimAnnotationKey ≠ [])
    (ha : (id.Annotations.lookup o.victimAnnotationKey).isSome = false)
    (hp : k8s.AnnotatePod id.Namespace id.Name
      [(o.victimAnnotationKey, o.victimAnnotationVal)] = none) :
    processEvent o k8s event s =
      (((s.identified o).call (Call.annotatePod id.Namespace id.Name
          [(o.victimAnnotationKey, o.victimAnnotationVal)])).incMarkedVictim victimStageMarked
          (str "annotation_applied"), Control.next) := by
  simp [processEvent, (gate_open_iff o event).1 h, hl, hr, hk, ha, hp, State.identified]

theorem gateOpen_of (o : OOMTracer) (event : BpfEvent)
    (h : o.ignoreGlobalOOM = true ∨ event.GlobalOom = true) : ¬ gateClosed o event := by
  rintro ⟨h1, h2⟩
  rcases h with h | h <;> simp_all

theorem isSome_eq_false_iff_none {α : Type} (x : Option α) : x.isSome = false ↔ x = none := by
  cases x <;> simp

/-! ## Call logs -/

theorem newCalls_append (s : State) (m : Option Metrics) (cs : List Call) :
    newCalls s { metrics := m, calls := s.calls ++ cs } = cs := by
  simp [newCalls]

theorem incEvent_calls (s : State) (a b : GoString) :
    (s.incEvent a b).calls = s.calls ++ [Call.incEvent a b] := rfl

theorem incMarkedVictim_calls (s : State) (a b : GoString) :
    (s.incMarkedVictim a b).calls = s.calls ++ [Call.incMarkedVictim a b] := rfl

theorem call_calls (s : State) (c : Call) : (s.call c).calls = s.calls ++ [c] := rfl

theorem identified_calls (o : OOMTracer) (s : State) :
    (s.identified o).calls = s.calls ++
      [Call.incEvent eventStageObserved (str "ebpf_capture"), Call.listPods o.nodeName,
        Call.incEvent eventStageIdentified (str "pod_identified")] := by
  simp [State.identified, State.incEvent, State.call]

theorem newCalls_of_calls (s s' : State) (cs : List Call) (h : s'.calls = s.calls ++ cs) :
    newCalls s s' = cs := by
  simp [newCalls, h]

theorem labels_ne :
    eventStageSkipped ≠ eventStageObserved ∧ eventStageSkipped ≠ eventStageIdentified ∧
    eventStageSkipped ≠ eventStageError ∧
    str "non_or_ignored_global_oom" ≠ str "no_pod_match" ∧
    str "non_or_ignored_global_oom" ≠ str "ebpf_capture" := by decide

/-- Calls of one iteration, for each way it can go. -/
theorem processEvent_newCalls (o : OOMTracer) (k8s : K8s) (event : BpfEvent) (s : State) :
    let cs := newCalls s (processEvent o k8s event s).1
    let observed := Call.incEvent eventStageObserved (str "ebpf_capture")
    let listing := Call.listPods o.nodeName
    let identified := Call.incEvent eventStageIdentified (str "pod_identified")
    (gateClosed o event →
      cs = [observed, Call.incEvent eventStageSkipped (str "non_or_ignored_global_oom")]) ∧
    (¬ gateClosed o event →
      (∀ err, k8s.ListPodsOnANode o.nodeName = Except.error err → cs = [observed, listing]) ∧
      (∀ pods, k8s.ListPodsOnANode o.nodeName = Except.ok pods →
        (resolveCandidates pods (Int8SliceToStringSlice event.Names) = none →
          cs = [observed, listing, Call.incEvent eventStageSkipped (str "no_pod_match")]) ∧
        (∀ id, resolveCandidates pods (Int8SliceToStringSlice event.Names) = some id →
          (o.victimAnnotationKey = [] → cs = [observed, listing, identified]) ∧
          (o.victimAnnotationKey ≠ [] →
            ((id.Annotations.lookup o.victimAnnotationKey).isSome = true →
              cs = [observed, listing, identified,
                Call.incMarkedVictim victimStageSkipped (str "annotation_exists")]) ∧
            ((id.Annotations.lookup o.victimAnnotationKey).isSome = false →
              (∀ err, k8s.AnnotatePod id.Namespace id.Name
                  [(o.victimAnnotationKey, o.victimAnnotationVal)] = some err →
                cs = [observed, listing, identified,
                  Call.annotatePod id.Namespace id.Name
                    [(o.victimAnnotationKey, o.victimAnnotationVal)],
                  Call.incEvent eventStageError (str "annotation_failed")]) ∧
              (k8s.AnnotatePod id.Namespace id.Name
                  [(o.victimAnnotationKey, o.victimAnnotationVal)] = none →
                cs = [observed, listing, identified,
                  Call.annotatePod id.Namespace id.Name
                    [(o.victimAnnotationKey, o.victimAnnotationVal)],
                  Call.incMarkedVictim victimStageMarked (str "annotation_applied")])))))) := by
  intro cs observed listing identified
  refine ⟨fun h => ?_, fun h => ⟨fun err hl => ?_, fun pods hl => ⟨fun hr => ?_, fun id hr =>
    ⟨fun hk => ?_, fun hk => ⟨fun ha => ?_, fun ha => ⟨fun err hp => ?_, fun hp => ?_⟩⟩⟩⟩⟩⟩
  · simp only [cs, processEvent_gated o k8s event s h]
    exact newCalls_of_calls _ _ _ (by simp [State.incEvent, observed])
  · simp only [cs, processEvent_listError o k8s event s h err hl]
    exact newCalls_of_calls _ _ _ (by simp [State.incEvent, State.call, observed, listing])
  · simp only [cs, processEvent_noMatch o k8s event s h pods hl hr]
    exact newCalls_of_calls _ _ _ (by simp [State.incEvent, State.call, observed, listing])
  · simp only [cs, processEvent_dryRun o k8s event s h pods id hl hr hk]
    exact newCalls_of_calls _ _ _ (identified_calls o s)
  · simp only [cs, processEvent_exists o k8s event s h pods id hl hr hk ha]
    exact newCalls_of_calls _ _ _ (by simp [incMarkedVictim_calls, identified_calls, observed, listing, identified])
  · simp only [cs, processEvent_patchError o k8s event s h pods id hl hr hk ha err hp]
    exact newCalls_of_calls _ _ _ (by simp [incEvent_calls, call_calls, identified_calls, observed, listing, identified])
  · simp only [cs, processEvent_applied o k8s event s h pods id hl hr hk ha hp]
    exact newCalls_of_calls _ _ _ (by simp [incMarkedVictim_calls, call_calls, identified_calls, observed, listing, identified])

theorem processEvent_extends (o : OOMTracer) (k8s : K8s) (event : BpfEvent) (s : State) :
    (processEvent o k8s event s).1.calls =
      s.calls ++ newCalls s (processEvent o k8s event s).1 := by
  have hpre : s.calls <+: (processEvent o k8s event s).1.calls := by
    unfold processEvent
    simp only [State.incEvent, State.call, State.incMarkedVictim]
    repeat' split
    all_goals simp [List.append_assoc]
  obtain ⟨cs, hcs⟩ := hpre
  rw [newCalls, ← hcs]
  simp

theorem processEvent_sink_independent (o : OOMTracer) (k8s : K8s) (event : BpfEvent)
    (s s' : State) (h : s.calls = s'.calls) :
    (processEvent o k8s event s).1.calls = (processEvent o k8s event s').1.calls ∧
      (processEvent o k8s event s).2 = (processEvent o k8s event s').2 := by
  unfold processEvent
  simp only [State.incEvent, State.call, State.incMarkedVictim, h]
  repeat' split
  all_goals simp_all

theorem processEvent_nil_sink (o : OOMTracer) (k8s : K8s) (event : BpfEvent) (s : State)
    (h : s.metrics = none) : (processEvent o k8s event s).1.metrics = none := by
  unfold processEvent
  simp only [State.incEvent, State.call, State.incMarkedVictim, h, IncEvent, IncMarkedVictim]
  repeat' split
  all_goals simp_all

/-! ## The loop, turn by turn -/

theorem traceLoop_closed (o : OOMTracer) (decode : GoString → Option BpfEvent)
    (ctxErr : Option GoError) (t : Turn) (turns : List Turn) (s : State)
    (h : t.read = ReadResult.errClosed) :
    traceLoop o decode ctxErr (t :: turns) s = (s.call Call.read, LoopResult.returned ctxErr) := by
  rw [traceLoop]; simp [h]

theorem traceLoop_errOther (o : OOMTracer) (decode : GoString → Option BpfEvent)
    (ctxErr : Option GoError) (t : Turn) (turns : List Turn) (s : State) (err : GoError)
    (h : t.read = ReadResult.errOther err) :
    traceLoop o decode ctxErr (t :: turns) s =
      traceLoop o decode ctxErr turns (s.call Call.read) := by
  rw [traceLoop]; simp [h]

theorem traceLoop_undecodable (o : OOMTracer) (decode : GoString → Option BpfEvent)
    (ctxErr : Option GoError) (t : Turn) (turns : List Turn) (s : State) (raw : GoString)
    (h : t.read = ReadResult.record raw) (hd : decode raw = none) :
    traceLoop o decode ctxErr (t :: turns) s =
      traceLoop o decode ctxErr turns (s.call Call.read) := by
  rw [traceLoop]; simp [h, hd]

theorem traceLoop_next (o : OOMTracer) (decode : GoString → Option BpfEvent)
    (ctxErr : Option GoError) (t : Turn) (turns : List Turn) (s : State) (raw : GoString)
    (event : BpfEvent) (h : t.read = ReadResult.record raw) (hd : decode raw = some event)
    (hc : (processEvent o t.k8s event (s.call Call.read)).2 = Control.next) :
    traceLoop o decode ctxErr (t :: turns) s =
      traceLoop o decode ctxErr turns (processEvent o t.k8s event (s.call Call.read)).1 := by
  rw [traceLoop]
  rcases hp : processEvent o t.k8s event (s.call Call.read) with ⟨s1, c1⟩
  rw [hp] at hc
  simp only at hc
  subst hc
  simp [h, hd, hp]

theorem traceLoop_ret (o : OOMTracer) (decode : GoString → Option BpfEvent)
    (ctxErr : Option GoError) (t : Turn) (turns : List Turn) (s : State) (raw : GoString)
    (event : BpfEvent) (err : GoError) (h : t.read = ReadResult.record raw)
    (hd : decode raw = some event)
    (hc : (processEvent o t.k8s event (s.call Call.read)).2 = Control.ret err) :
    traceLoop o decode ctxErr (t :: turns) s =
      ((processEvent o t.k8s event (s.call Call.read)).1, LoopResult.returned (some err)) := by
  rw [traceLoop]
  rcases hp : processEvent o t.k8s event (s.call Call.read) with ⟨s1, c1⟩
  rw [hp] at hc
  simp only at hc
  subst hc
  simp [h, hd, hp]

theorem traceLoop_sink_independent (o : OOMTracer) (decode : GoString → Option BpfEvent)
    (ctxErr : Option GoError) (turns : List Turn) :
    ∀ s s' : State, s.calls = s'.calls →
      (traceLoop o decode ctxErr turns s).1.calls = (traceLoop o decode ctxErr turns s').1.calls ∧
        (traceLoop o decode ctxErr turns s).2 = (traceLoop o decode ctxErr turns s').2 := by
  induction turns with
  | nil => intro s s' h; exact ⟨h, rfl⟩
  | cons t turns ih =>
    intro s s' h
    have hc : (s.call Call.read).calls = (s'.call Call.read).calls := by simp [State.call, h]
    cases hr : t.read with
    | errClosed =>
      rw [traceLoop_closed _ _ _ _ _ _ hr, traceLoop_closed _ _ _ _ _ _ hr]
      exact ⟨hc, rfl⟩
    | errOther e =>
      rw [traceLoop_errOther _ _ _ _ _ _ e hr, traceLoop_errOther _ _ _ _ _ _ e hr]
      exact ih _ _ hc
    | record raw =>
      cases hd : decode raw with
      | none =>
        rw [traceLoop_undecodable _ _ _ _ _ _ raw hr hd, traceLoop_undecodable _ _ _ _ _ _ raw hr hd]
        exact ih _ _ hc
      | some event =>
        have hp := processEvent_sink_independent o t.k8s event _ _ hc
        cases hctl : (processEvent o t.k8s event (s.call Call.read)).2 with
        | next =>
          rw [traceLoop_next _ _ _ _ _ _ raw event hr hd hctl,
            traceLoop_next _ _ _ _ _ _ raw event hr hd (hp.2 ▸ hctl)]
          exact ih _ _ hp.1
        | ret err =>
          rw [traceLoop_ret _ _ _ _ _ _ raw event err hr hd hctl,
            traceLoop_ret _ _ _ _ _ _ raw event err hr hd (hp.2 ▸ hctl)]
          exact ⟨hp.1, rfl⟩

/-- Method `TraceKernelOOMKills` is the loop once the probe is loaded, and returns the
load error otherwise. -/
theorem TraceKernelOOMKills_eq (o : OOMTracer) (decode : GoString → Option BpfEvent)
    (ctxErr : Option GoError) (turns : List Turn) (s : State) :
    TraceKernelOOMKills o none decode ctxErr turns s = traceLoop o decode ctxErr turns s ∧
      ∀ err, TraceKernelOOMKills o (some err) decode ctxErr turns s =
        (s, LoopResult.returned (some err)) :=
  ⟨rfl, fun _ => rfl⟩

/-! ## The sink -/

theorem increment_value (v : CounterVec) (stage reason st rs : GoString) (hs : stage ≠ [])
    (hr : reason ≠ []) :
    CounterVec.value (increment v stage reason) st rs =
      CounterVec.value v st rs + if (st, rs) = (stage, reason) then 1 else 0 := by
  unfold increment CounterVec.value
  simp only [hs, hr, if_false, List.count_append, List.count_singleton]
  congr 1
  by_cases h : (st, rs) = (stage, reason)
  · simp [h]
  · have : ¬ (stage, reason) = (st, rs) := fun h' => h h'.symm
    simp [h, this]

theorem incEvent_bumps (m : Metrics) (stage reason : GoString) (hs : stage ≠ [])
    (hr : reason ≠ []) :
    ∃ m', IncEvent (some m) stage reason = some m' ∧
      ∀ f st rs, m'.value f st rs =
        m.value f st rs + if (f, st, rs) = (Family.events, stage, reason) then 1 else 0 := by
  refine ⟨_, rfl, fun f st rs => ?_⟩
  cases f with
  | events =>
    simp only [Metrics.value, increment_value _ _ _ _ _ hs hr]
    congr 1
    by_cases h : (st, rs) = (stage, reason)
    · simp [h]
    · have : ¬ (Family.events, st, rs) = (Family.events, stage, reason) := by
        intro h'; apply h; injection h'
      simp [h, this]
  | markedVictims => simp [Metrics.value]

theorem incMarkedVictim_bumps (m : Metrics) (stage reason : GoString) (hs : stage ≠ [])
    (hr : reason ≠ []) :
    ∃ m', IncMarkedVictim (some m) stage reason = some m' ∧
      ∀ f st rs, m'.value f st rs =
        m.value f st rs + if (f, st, rs) = (Family.markedVictims, stage, reason) then 1 else 0 := by
  refine ⟨_, rfl, fun f st rs => ?_⟩
  cases f with
  | markedVictims =>
    simp only [Metrics.value, increment_value _ _ _ _ _ hs hr]
    congr 1
    by_cases h : (st, rs) = (stage, reason)
    · simp [h]
    · have : ¬ (Family.markedVictims, st, rs) = (Family.markedVictims, stage, reason) := by
        intro h'; apply h; injection h'
      simp [h, this]
  | events => simp [Metrics.value]

/-- The call of a terminal outcome raises its counter by one and no other counter. -/
theorem terminalCall_bumps (out : Outcome) (m : Metrics) :
    ∃ m', applyCall (some m) out.terminalCall = some m' ∧
      ∀ f st rs, m'.value f st rs = m.value f st rs + if (f, st, rs) = out.counter then 1 else 0 := by
  cases out
  · exact incEvent_bumps m (str "skipped") (str "non_or_ignored_global_oom") (by decide) (by decide)
  · exact incEvent_bumps m (str "skipped") (str "no_pod_match") (by decide) (by decide)
  · exact incEvent_bumps m (str "identified") (str "pod_identified") (by decide) (by decide)
  · exact incMarkedVictim_bumps m (str "marked") (str "annotation_applied") (by decide) (by decide)
  · exact incMarkedVictim_bumps m (str "skipped") (str "annotation_exists") (by decide) (by decide)
  · exact incEvent_bumps m (str "error") (str "annotation_failed") (by decide) (by decide)

theorem processEvent_control (o : OOMTracer) (k8s : K8s) (event : BpfEvent) (s : State) :
    (∀ err, (processEvent o k8s event s).2 = Control.ret err ↔
      (¬ gateClosed o event ∧ k8s.ListPodsOnANode o.nodeName = Except.error err)) := by
  intro err
  by_cases hg : gateClosed o event
  · simp [processEvent_gated o k8s event s hg, hg]
  · cases hl : k8s.ListPodsOnANode o.nodeName with
    | error e =>
      rw [processEvent_listError o k8s event s hg e hl]
      simp [hg]
    | ok pods =>
      have : (processEvent o k8s event s).2 = Control.next := by
        unfold processEvent
        simp only [(gate_open_iff o event).1 hg, hl]
        repeat' split
        all_goals simp_all
      simp [this, hg]

theorem stops_iff (o : OOMTracer) (decode : GoString → Option BpfEvent) (t : Turn) :
    stops o decode t = true ↔
      t.read = ReadResult.errClosed ∨
        ∃ raw event err, t.read = ReadResult.record raw ∧ decode raw = some event ∧
          ¬ gateClosed o event ∧ t.k8s.ListPodsOnANode o.nodeName = Except.error err := by
  constructor
  · intro h
    unfold stops at h
    cases hr : t.read with
    | errClosed => exact Or.inl rfl
    | errOther e => simp [hr] at h
    | record raw =>
      rw [hr] at h
      simp only at h
      cases hd : decode raw with
      | none => simp [hd] at h
      | some event =>
        rw [hd] at h
        simp only at h
        by_cases hg : o.ignoreGlobalOOM = false ∧ event.GlobalOom = false
        · rw [if_pos hg] at h
          simp at h
        · rw [if_neg hg] at h
          cases hl : t.k8s.ListPodsOnANode o.nodeName with
          | error e => exact Or.inr ⟨raw, event, e, rfl, hd, hg, rfl⟩
          | ok pods => simp [hl] at h
  · rintro (hr | ⟨raw, event, err, hr, hd, hg, hl⟩)
    · simp [stops, hr]
    · unfold stops
      rw [hr]
      simp only
      rw [hd]
      simp only
      have hg' : ¬ (o.ignoreGlobalOOM = false ∧ event.GlobalOom = false) := hg
      rw [if_neg hg', hl]

/-- A turn that does not stop the loop is followed by the next read. -/
theorem traceLoop_continues (o : OOMTracer) (decode : GoString → Option BpfEvent)
    (ctxErr : Option GoError) (t : Turn) (turns : List Turn) (s : State)
    (h : stops o decode t = false) :
    ∃ s', traceLoop o decode ctxErr (t :: turns) s = traceLoop o decode ctxErr turns s' := by
  have hn : ¬ (stops o decode t = true) := by simp [h]
  rw [stops_iff] at hn
  cases hr : t.read with
  | errClosed => exact absurd (Or.inl hr) hn
  | errOther e => exact ⟨_, traceLoop_errOther _ _ _ _ _ _ e hr⟩
  | record raw =>
    cases hd : decode raw with
    | none => exact ⟨_, traceLoop_undecodable _ _ _ _ _ _ raw hr hd⟩
    | some event =>
      cases hc : (processEvent o t.k8s event (s.call Call.read)).2 with
      | next => exact ⟨_, traceLoop_next _ _ _ _ _ _ raw event hr hd hc⟩
      | ret err =>
        have := (processEvent_control o t.k8s event (s.call Call.read) err).1 hc
        exact absurd (Or.inr ⟨raw, event, err, hr, hd, this.1, this.2⟩) hn

/-- A turn that stops the loop makes it return, whatever follows. -/
theorem traceLoop_stops (o : OOMTracer) (decode : GoString → Option BpfEvent)
    (ctxErr : Option GoError) (t : Turn) (turns : List Turn) (s : State)
    (h : stops o decode t = true) :
    ∃ s' err, traceLoop o decode ctxErr (t :: turns) s = (s', LoopResult.returned err) := by
  rcases (stops_iff o decode t).1 h with hr | ⟨raw, event, err, hr, hd, hg, hl⟩
  · exact ⟨_, _, traceLoop_closed _ _ _ _ _ _ hr⟩
  · have hc := (processEvent_control o t.k8s event (s.call Call.read) err).2 ⟨hg, hl⟩
    exact ⟨_, _, traceLoop_ret _ _ _ _ _ _ raw event err hr hd hc⟩

/-- The loop is still running after `turns` exactly when none of the turns stops it. -/
theorem traceLoop_running_iff (o : OOMTracer) (decode : GoString → Option BpfEvent)
    (ctxErr : Option GoError) (turns : List Turn) :
    ∀ s, (traceLoop o decode ctxErr turns s).2 = LoopResult.running ↔
      ∀ t ∈ turns, stops o decode t = false := by
  induction turns with
  | nil => intro s; simp [traceLoop]
  | cons t turns ih =>
    intro s
    cases hst : stops o decode t with
    | true =>
      obtain ⟨s', err, h⟩ := traceLoop_stops o decode ctxErr t turns s hst
      simp [h, hst]
    | false =>
      obtain ⟨s', h⟩ := traceLoop_continues o decode ctxErr t turns s hst
      rw [h, ih s']
      simp [hst]

/-! ## The resolver -/

theorem cidPatternFind_hex64 (s t : GoString) (h : cidPatternFind s = some t) : IsHex64 t := by
  induction s with
  | nil => simp [cidPatternFind] at h
  | cons b r ih =>
    rw [cidPatternFind] at h
    split_ifs at h with hw
    · simp only [Option.some.injEq] at h
      subst h
      exact ⟨hw.1, by simpa [List.all_eq_true] using hw.2⟩
    · exact ih h

theorem cidPatternFind_length (s t : GoString) (h : cidPatternFind s = some t) : t.length = 64 :=
  (cidPatternFind_hex64 s t h).1

theorem statusMatches_iff (target : GoString) (h64 : target.length = 64)
    (statuses : List ContainerStatus) :
    statusMatches target statuses =
      statuses.any (fun status => cidPatternFind status.ContainerID == some target) := by
  unfold statusMatches
  congr 1
  funext status
  cases hc : cidPatternFind status.ContainerID with
  | none =>
    have : target ≠ [] := by intro h; simp [h] at h64
    simp [cidPatternFindString, hc]
  | some live =>
    have hl := cidPatternFind_length _ _ hc
    have : live ≠ [] := by intro h; simp [h] at hl
    simp [cidPatternFindString, hc, this]

theorem lookupLoop_pod (m : GoString) (c : Option GoString) (pods : List Pod) :
    lookupLoop (some m) c pods =
      (pods.find? (fun pod => pod.UID == replaceUnderscores m)).map Pod.toID := by
  induction pods with
  | nil => simp [lookupLoop]
  | cons pod pods ih =>
    by_cases h : pod.UID = replaceUnderscores m
    · simp [lookupLoop, h, List.find?_cons]
    · have hb : (pod.UID == replaceUnderscores m) = false := by simpa using h
      simp [lookupLoop, h, List.find?_cons, hb, ih]

theorem lookupLoop_cid (target : GoString) (h64 : target.length = 64) (pods : List Pod) :
    lookupLoop none (some target) pods =
      (pods.find? (fun pod => pod.hasContainer target)).map Pod.toID := by
  induction pods with
  | nil => simp [lookupLoop]
  | cons pod pods ih =>
    have hc : pod.hasContainer target =
        (statusMatches target pod.Status.ContainerStatuses ||
          statusMatches target pod.Status.InitContainerStatuses ||
          statusMatches target pod.Status.EphemeralContainerStatuses) := by
      simp [Pod.hasContainer, Pod.allStatuses, statusMatches_iff target h64, List.any_append,
        Bool.or_assoc]
    rw [lookupLoop]
    simp only [List.find?_cons, hc, ih]
    cases statusMatches target pod.Status.ContainerStatuses <;>
      cases statusMatches target pod.Status.InitContainerStatuses <;>
      cases statusMatches target pod.Status.EphemeralContainerStatuses <;> simp

theorem LookupPod_pod (s m : GoString) (pods : List Pod) (h : podPatternSubmatch s = some m) :
    LookupPod s pods = (pods.find? (fun pod => pod.UID == replaceUnderscores m)).map Pod.toID := by
  simp [LookupPod, h, lookupLoop_pod]

theorem LookupPod_cid (s target : GoString) (pods : List Pod) (h : podPatternSubmatch s = none)
    (hc : cidPatternFind s = some target) :
    LookupPod s pods = (pods.find? (fun pod => pod.hasContainer target)).map Pod.toID := by
  simp [LookupPod, h, hc, lookupLoop_cid target (cidPatternFind_length s target hc)]

theorem podPatternSubmatch_ne_nil (s m : GoString) (h : podPatternSubmatch s = some m) : s ≠ [] := by
  intro hs
  subst hs
  simp [podPatternSubmatch] at h

theorem resolveCandidates_skip (pods : List Pod) (before rest : List GoString)
    (hb : ∀ c ∈ before, c = [] ∨ LookupPod c pods = none) :
    resolveCandidates pods (before ++ rest) = resolveCandidates pods rest := by
  induction before with
  | nil => rfl
  | cons c cs ih =>
    have hcs : ∀ c ∈ cs, c = [] ∨ LookupPod c pods = none :=
      fun x hx => hb x (List.mem_cons_of_mem _ hx)
    rcases hb c (List.mem_cons_self _ _) with h | h
    · simp [resolveCandidates, h, ih hcs]
    · by_cases hc : c = []
      · simp [resolveCandidates, hc, ih hcs]
      · simp [resolveCandidates, hc, h, ih hcs]

theorem isHex64_take (s t b : GoString) (h : IsHex64 t) (hs : s = t ++ b) : s.take 64 = t := by
  subst hs
  rw [← h.1]
  simp

theorem cidPatternFind_window (s : GoString) (hw : IsHex64 (s.take 64)) :
    cidPatternFind s = some (s.take 64) := by
  cases s with
  | nil => simp [IsHex64] at hw
  | cons b r =>
    rw [cidPatternFind]
    have : (List.take 64 (b :: r)).all isHexByte = true := by
      rw [List.all_eq_true]; exact hw.2
    exact if_pos ⟨hw.1, this⟩

theorem cidPatternFind_cons (b : Nat) (r : GoString) (hw : ¬ IsHex64 ((b :: r).take 64)) :
    cidPatternFind (b :: r) = cidPatternFind r := by
  rw [cidPatternFind]
  have : ¬ ((List.take 64 (b :: r)).length = 64 ∧ (List.take 64 (b :: r)).all isHexByte = true) := by
    intro h
    exact hw ⟨h.1, by simpa [List.all_eq_true] using h.2⟩
  simp only [this, if_false]

/-- The model of `cidPattern` finds exactly the leftmost run of 64 hex bytes. -/
theorem cidPatternFind_eq_some_iff (s t : GoString) :
    cidPatternFind s = some t ↔ IsLeftmostHex64 s t := by
  induction s with
  | nil =>
    constructor
    · intro h; simp [cidPatternFind] at h
    · rintro ⟨h64, a, b, hs, -⟩
      have : t = [] := by
        have := congrArg List.length hs
        simp at this
        exact List.length_eq_zero.1 (by omega)
      simp [this, IsHex64] at h64
  | cons c r ih =>
    by_cases hw : IsHex64 ((c :: r).take 64)
    · rw [cidPatternFind_window _ hw]
      constructor
      · intro h
        simp only [Option.some.injEq] at h
        subst h
        exact ⟨hw, [], (c :: r).drop 64, by simp, fun _ _ _ _ _ => by simp⟩
      · rintro ⟨h64, a, b, hs, hmin⟩
        have h0 := hmin [] ((c :: r).take 64) ((c :: r).drop 64) (by simp) hw
        have ha : a = [] := List.length_eq_zero.1 (by simpa using h0)
        subst ha
        rw [isHex64_take (c :: r) t b h64 (by simpa using hs)]
    · rw [cidPatternFind_cons c r hw, ih]
      constructor
      · rintro ⟨h64, a, b, hs, hmin⟩
        refine ⟨h64, c :: a, b, by simp [hs], fun a' t' b' hs' h64' => ?_⟩
        cases a' with
        | nil =>
          exfalso
          apply hw
          rw [isHex64_take (c :: r) t' b' h64' (by simpa using hs')]
          exact h64'
        | cons c' a'' =>
          simp only [List.cons_append, List.cons.injEq] at hs'
          have := hmin a'' t' b' hs'.2 h64'
          simp; omega
      · rintro ⟨h64, a, b, hs, hmin⟩
        cases a with
        | nil =>
          exfalso
          apply hw
          rw [isHex64_take (c :: r) t b h64 (by simpa using hs)]
          exact h64
        | cons c' a2 =>
          simp only [List.cons_append, List.cons.injEq] at hs
          refine ⟨h64, a2, b, hs.2, fun a' t' b' hs' h64' => ?_⟩
          have := hmin (c :: a') t' b' (by simp [hs']) h64'
          simp at this; omega

theorem cidPatternFind_eq_none_iff (s : GoString) :
    cidPatternFind s = none ↔ ¬ ∃ a t b, s = a ++ t ++ b ∧ IsHex64 t := by
  induction s with
  | nil =>
    simp only [cidPatternFind, true_iff]
    rintro ⟨a, t, b, hs, h64⟩
    have : t = [] := by
      have := congrArg List.length hs
      simp at this
      exact List.length_eq_zero.1 (by omega)
    simp [this, IsHex64] at h64
  | cons c r ih =>
    by_cases hw : IsHex64 ((c :: r).take 64)
    · rw [cidPatternFind_window _ hw]
      simp only [reduceCtorEq, false_iff, not_not]
      exact ⟨[], (c :: r).take 64, (c :: r).drop 64, by simp, hw⟩
    · rw [cidPatternFind_cons c r hw, ih]
      constructor
      · rintro h ⟨a, t, b, hs, h64⟩
        cases a with
        | nil =>
          apply hw
          rw [isHex64_take (c :: r) t b h64 (by simpa using hs)]
          exact h64
        | cons c' a2 =>
          simp only [List.cons_append, List.cons.injEq] at hs
          exact h ⟨a2, t, b, hs.2, h64⟩
      · rintro h ⟨a, t, b, hs, h64⟩
        exact h ⟨c :: a, t, b, by simp [hs], h64⟩

theorem str_pod : str "pod" = podBytes := by decide

theorem podPatternSubmatch_head (c : Nat) (rest : GoString) (hc : isPodIdByte c = true) :
    podPatternSubmatch (0x70 :: 0x6F :: 0x64 :: c :: rest) =
      some ((c :: rest).takeWhile isPodIdByte) := by
  rw [podPatternSubmatch]
  simp [podBytes, List.takeWhile, hc]

theorem podPatternSubmatch_cons (b : Nat) (t : GoString)
    (h : ¬ ∃ c rest, b :: t = 0x70 :: 0x6F :: 0x64 :: c :: rest ∧ isPodIdByte c = true) :
    podPatternSubmatch (b :: t) = podPatternSubmatch t := by
  rw [podPatternSubmatch]
  apply if_neg
  rintro ⟨h3, hrun⟩
  apply h
  have hs : b :: t = (b :: t).take 3 ++ (b :: t).drop 3 := (List.take_append_drop 3 _).symm
  cases hd : (b :: t).drop 3 with
  | nil => simp [hd] at hrun
  | cons c rest =>
    refine ⟨c, rest, ?_, ?_⟩
    · rw [hs, h3, hd]; rfl
    · by_contra hc
      simp [hd, List.takeWhile, hc] at hrun

theorem takeWhile_capture (tok rest : GoString) (ht : ∀ b ∈ tok, isPodIdByte b = true)
    (hr : ∀ c r, rest = c :: r → isPodIdByte c = false) :
    (tok ++ rest).takeWhile isPodIdByte = tok := by
  induction tok with
  | nil =>
    cases rest with
    | nil => rfl
    | cons c r => simp [List.takeWhile, hr c r rfl]
  | cons x xs ih =>
    have hx := ht x (List.mem_cons_self _ _)
    simp [List.takeWhile, hx, ih (fun b hb => ht b (List.mem_cons_of_mem _ hb))]

theorem capture_takeWhile (c : Nat) (rest : GoString) (hc : isPodIdByte c = true) :
    let tok := (c :: rest).takeWhile isPodIdByte
    c :: rest = tok ++ (c :: rest).dropWhile isPodIdByte ∧ tok ≠ [] ∧
      (∀ b ∈ tok, isPodIdByte b = true) ∧
      ∀ x r, (c :: rest).dropWhile isPodIdByte = x :: r → isPodIdByte x = false := by
  refine ⟨(List.takeWhile_append_dropWhile _ _).symm, ?_, ?_, ?_⟩
  · simp [List.takeWhile, hc]
  · intro b hb
    exact List.mem_takeWhile_imp hb
  · intro x r hx
    have := List.head_dropWhile_not isPodIdByte (c :: rest) (by rw [hx]; simp)
    simpa [hx] using this

/-- The model of `podPattern` captures exactly the run after the leftmost match. -/
theorem podPatternSubmatch_eq_some_iff (s tok : GoString) :
    podPatternSubmatch s = some tok ↔ IsPodCapture s tok := by
  induction s with
  | nil =>
    constructor
    · intro h; simp [podPatternSubmatch] at h
    · rintro ⟨a, rest, hs, -⟩
      have := congrArg List.length hs
      simp [podBytes] at this
      omega
  | cons b t ih =>
    by_cases hh : ∃ c rest, b :: t = 0x70 :: 0x6F :: 0x64 :: c :: rest ∧ isPodIdByte c = true
    · obtain ⟨c, rest, hbt, hc⟩ := hh
      rw [hbt, podPatternSubmatch_head c rest hc]
      obtain ⟨h1, h2, h3, h4⟩ := capture_takeWhile c rest hc
      constructor
      · intro h
        simp only [Option.some.injEq] at h
        subst h
        refine ⟨[], (c :: rest).dropWhile isPodIdByte, ?_, h2, h3, h4, fun _ _ _ _ _ => by simp⟩
        simp only [podBytes, List.nil_append, List.cons_append, List.append_assoc]
        rw [← h1]
      · rintro ⟨a, rest', hs, hne, hall, hstop, hmin⟩
        have h0 := hmin [] c rest (by simp [podBytes]) hc
        have ha : a = [] := List.length_eq_zero.1 (by simpa using h0)
        subst ha
        simp only [podBytes, List.nil_append, List.cons_append, List.cons.injEq, true_and] at hs
        rw [hs, takeWhile_capture tok rest' hall hstop]
    · rw [podPatternSubmatch_cons b t hh, ih]
      constructor
      · rintro ⟨a, rest, hs, hne, hall, hstop, hmin⟩
        refine ⟨b :: a, rest, by simp [hs], hne, hall, hstop, fun a' c r' hs' hc => ?_⟩
        cases a' with
        | nil =>
          exfalso
          exact hh ⟨c, r', by simpa [podBytes] using hs', hc⟩
        | cons b' a'' =>
          simp only [List.cons_append, List.cons.injEq] at hs'
          have := hmin a'' c r' (by simpa using hs'.2) hc
          simp; omega
      · rintro ⟨a, rest, hs, hne, hall, hstop, hmin⟩
        cases a with
        | nil =>
          exfalso
          cases tok with
          | nil => exact hne rfl
          | cons c r' =>
            exact hh ⟨c, r' ++ rest, by simpa [podBytes] using hs, hall c (List.mem_cons_self _ _)⟩
        | cons b' a2 =>
          simp only [List.cons_append, List.cons.injEq] at hs
          refine ⟨a2, rest, by simpa using hs.2, hne, hall, hstop, fun a' c r' hs' hc => ?_⟩
          have := hmin (b :: a') c r' (by simp [hs']) hc
          simp at this; omega

theorem podPatternSubmatch_eq_none_iff (s : GoString) :
    podPatternSubmatch s = none ↔
      ¬ ∃ a c r, s = a ++ podBytes ++ c :: r ∧ isPodIdByte c = true := by
  induction s with
  | nil =>
    simp only [podPatternSubmatch, true_iff]
    rintro ⟨a, c, r, hs, -⟩
    have := congrArg List.length hs
    simp [podBytes] at this
    omega
  | cons b t ih =>
    by_cases hh : ∃ c rest, b :: t = 0x70 :: 0x6F :: 0x64 :: c :: rest ∧ isPodIdByte c = true
    · obtain ⟨c, rest, hbt, hc⟩ := hh
      rw [hbt, podPatternSubmatch_head c rest hc]
      simp only [reduceCtorEq, false_iff, not_not]
      exact ⟨[], c, rest, by simp [podBytes], hc⟩
    · rw [podPatternSubmatch_cons b t hh, ih]
      constructor
      · rintro h ⟨a, c, r, hs, hc⟩
        cases a with
        | nil => exact hh ⟨c, r, by simpa [podBytes] using hs, hc⟩
        | cons b' a2 =>
          simp only [List.cons_append, List.cons.injEq] at hs
          exact h ⟨a2, c, r, by simpa using hs.2, hc⟩
      · rintro h ⟨a, c, r, hs, hc⟩
        exact h ⟨b :: a, c, r, by simp [hs], hc⟩

/-! ## Decoding of buffers -/

theorem byte_eq_zero_iff (v : Int) (h : IsInt8 v) : byte v = 0 ↔ v = 0 := by
  unfold IsInt8 at h
  unfold byte
  omega

theorem byte_toInt8 (b : Nat) (h : b < 256) : byte (toInt8 b) = b := by
  unfold byte toInt8
  split_ifs <;> omega

theorem isInt8_toInt8 (b : Nat) (h : b < 256) : IsInt8 (toInt8 b) := by
  unfold IsInt8 toInt8
  split_ifs <;> omega

theorem byte_lt (v : Int) : byte v < 256 := by
  unfold byte
  omega

theorem takeWhile_map_byte (src : List Int) (h : ∀ v ∈ src, IsInt8 v) :
    (src.map byte).takeWhile (fun b => b != 0) = (src.takeWhile (fun v => v != 0)).map byte := by
  induction src with
  | nil => rfl
  | cons v r ih =>
    have hv := h v (List.mem_cons_self _ _)
    have hr := ih (fun x hx => h x (List.mem_cons_of_mem _ hx))
    by_cases h0 : v = 0
    · subst h0
      simp [List.takeWhile, byte]
    · have hb : byte v ≠ 0 := fun hb => h0 ((byte_eq_zero_iff v hv).1 hb)
      have hb' : (byte v != 0) = true := by simpa using hb
      have h0' : (v != 0) = true := by simpa using h0
      rw [List.map_cons, List.takeWhile_cons, List.takeWhile_cons, hb', h0']
      simp [hr]

theorem takeWhile_ne_zero_of_not_mem (s : List Nat) (h : 0 ∉ s) :
    s.takeWhile (fun b => b != 0) = s := by
  rw [List.takeWhile_eq_self_iff]
  intro b hb
  have : b ≠ 0 := fun h0 => h (h0 ▸ hb)
  simpa using this

theorem decode_encodeInt8 (n : Nat) (s : GoString) (hs : IsBytes s) (hnul : 0 ∉ s) :
    Int8SliceToString (encodeInt8 n s) = s := by
  unfold Int8SliceToString ByteSliceToString encodeInt8
  have hmap : (s.map toInt8).map byte = s := by
    rw [List.map_map]
    conv_rhs => rw [← List.map_id s]
    apply List.map_congr_left
    intro b hb
    exact byte_toInt8 b (hs b hb)
  rw [List.map_append, hmap]
  cases hk : n - s.length with
  | zero => simpa using takeWhile_ne_zero_of_not_mem s hnul
  | succ k =>
    rw [List.replicate_succ, List.map_cons, List.takeWhile_append]
    have : s.takeWhile (fun b => b != 0) = s := takeWhile_ne_zero_of_not_mem s hnul
    simp [this, List.takeWhile, byte]

/-! ## Trimming -/

theorem stripRune_eq_none_iff (table : List GoString) (s : GoString) :
    stripRune table s = none ↔ ∀ e ∈ table, ¬ e <+: s := by
  unfold stripRune
  rw [List.findSome?_eq_none_iff]
  constructor
  · intro h e he hp
    have := h e he
    rw [if_pos (List.isPrefixOf_iff_prefix.2 hp)] at this
    exact Option.noConfusion this
  · intro h e he
    rw [if_neg (fun hp => h e he (List.isPrefixOf_iff_prefix.1 hp))]

theorem stripRune_eq_some_iff (table : List GoString) (hc : IsCode table) (s r : GoString) :
    stripRune table s = some r ↔ ∃ e ∈ table, s = e ++ r := by
  constructor
  · intro h
    unfold stripRune at h
    obtain ⟨e, he, hfe⟩ := List.exists_of_findSome?_eq_some h
    split_ifs at hfe with hp
    obtain ⟨t, ht⟩ := List.isPrefixOf_iff_prefix.1 hp
    refine ⟨e, he, ?_⟩
    simp only [Option.some.injEq] at hfe
    rw [← hfe, ← ht]
    simp
  · rintro ⟨e, he, rfl⟩
    cases hx : stripRune table (e ++ r) with
    | none =>
      exact absurd (List.prefix_append e r) ((stripRune_eq_none_iff table _).1 hx e he)
    | some r' =>
      unfold stripRune at hx
      obtain ⟨e', he', hfe⟩ := List.exists_of_findSome?_eq_some hx
      split_ifs at hfe with hp
      have hp' := List.isPrefixOf_iff_prefix.1 hp
      have hee : e' = e := by
        rcases List.prefix_or_prefix_of_prefix hp' (List.prefix_append e r) with h | h
        · exact hc.2 e' he' e he h
        · exact (hc.2 e he e' he' h).symm
      subst hee
      simp only [Option.some.injEq] at hfe
      rw [← hfe]
      simp

theorem stripRune_length (table : List GoString) (hc : IsCode table) (s r : GoString)
    (h : stripRune table s = some r) : r.length < s.length := by
  obtain ⟨e, he, rfl⟩ := (stripRune_eq_some_iff table hc s r).1 h
  have := List.length_pos.2 (hc.1 e he)
  simp; omega

theorem trimN_fuel (table : List GoString) (hc : IsCode table) :
    ∀ (n m : Nat) (s : GoString), s.length ≤ n → s.length ≤ m →
      trimN table n s = trimN table m s := by
  intro n
  induction n with
  | zero =>
    intro m s hn _
    have : s = [] := List.length_eq_zero.1 (by omega)
    subst this
    cases m with
    | zero => rfl
    | succ m =>
      have : stripRune table [] = none := by
        rw [stripRune_eq_none_iff]
        intro e he hp
        exact hc.1 e he (List.prefix_nil.1 hp)
      simp [trimN, this]
  | succ n ih =>
    intro m s hn hm
    cases hs : stripRune table s with
    | none =>
      cases m with
      | zero => simp [trimN, hs]
      | succ m => simp [trimN, hs]
    | some r =>
      have hlt := stripRune_length table hc s r hs
      cases m with
      | zero => omega
      | succ m =>
        simp only [trimN, hs]
        exact ih m r (by omega) (by omega)

theorem trim_of_none (table : List GoString) (s : GoString) (h : stripRune table s = none) :
    trim table s = s := by
  unfold trim
  cases hn : s.length with
  | zero => rfl
  | succ n => simp [trimN, h]

theorem trim_of_some (table : List GoString) (hc : IsCode table) (s r : GoString)
    (h : stripRune table s = some r) : trim table s = trim table r := by
  unfold trim
  have hlt := stripRune_length table hc s r h
  cases hn : s.length with
  | zero => omega
  | succ n =>
    simp only [trimN, h]
    exact trimN_fuel table hc n r.length r (by omega) (le_refl _)

theorem trim_rune_append (table : List GoString) (hc : IsCode table) (e s : GoString)
    (he : e ∈ table) : trim table (e ++ s) = trim table s :=
  trim_of_some table hc (e ++ s) s ((stripRune_eq_some_iff table hc _ _).2 ⟨e, he, rfl⟩)

theorem trim_join_append (table : List GoString) (hc : IsCode table) (ws : List GoString)
    (hws : ∀ w ∈ ws, w ∈ table) (y : GoString) : trim table (ws.flatten ++ y) = trim table y := by
  induction ws with
  | nil => rfl
  | cons w ws ih =>
    rw [List.flatten_cons, List.append_assoc,
      trim_rune_append table hc w _ (hws w (List.mem_cons_self _ _))]
    exact ih (fun x hx => hws x (List.mem_cons_of_mem _ hx))

/-- What trimming leaves starts with no rune, and what it removes is a run of runes. -/
theorem trim_spec (table : List GoString) (hc : IsCode table) :
    ∀ (n : Nat) (s : GoString), s.length ≤ n →
      stripRune table (trim table s) = none ∧
        ∃ ws : List GoString, (∀ w ∈ ws, w ∈ table) ∧ s = ws.flatten ++ trim table s := by
  intro n
  induction n with
  | zero =>
    intro s hn
    have : s = [] := List.length_eq_zero.1 (by omega)
    subst this
    have h0 : stripRune table [] = none := by
      rw [stripRune_eq_none_iff]
      intro e he hp
      exact hc.1 e he (List.prefix_nil.1 hp)
    rw [trim_of_none table [] h0]
    exact ⟨h0, [], by simp, rfl⟩
  | succ n ih =>
    intro s hn
    cases hs : stripRune table s with
    | none =>
      rw [trim_of_none table s hs]
      exact ⟨hs, [], by simp, rfl⟩
    | some r =>
      have hlt := stripRune_length table hc s r hs
      obtain ⟨h1, ws, hws, hr⟩ := ih r (by omega)
      obtain ⟨e, he, hse⟩ := (stripRune_eq_some_iff table hc s r).1 hs
      rw [trim_of_some table hc s r hs]
      refine ⟨h1, e :: ws, ?_, ?_⟩
      · intro w hw
        rcases List.mem_cons.1 hw with rfl | hw
        · exact he
        · exact hws w hw
      · rw [List.flatten_cons, List.append_assoc, ← hr, hse]

theorem trim_clean (table : List GoString) (hc : IsCode table) (s : GoString) :
    stripRune table (trim table s) = none :=
  (trim_spec table hc s.length s (le_refl _)).1

theorem trim_decomp (table : List GoString) (hc : IsCode table) (s : GoString) :
    ∃ ws : List GoString, (∀ w ∈ ws, w ∈ table) ∧ s = ws.flatten ++ trim table s :=
  (trim_spec table hc s.length s (le_refl _)).2

theorem trim_idem (table : List GoString) (hc : IsCode table) (s : GoString) :
    trim table (trim table s) = trim table s :=
  trim_of_none table _ (trim_clean table hc s)

/-- A byte that occurs in no rune stops the trimming. -/
theorem stripRune_sep (table : List GoString) (hc : IsCode table) (c : Nat)
    (hsep : ∀ e ∈ table, c ∉ e) (a b : GoString) :
    stripRune table (a ++ c :: b) = (stripRune table a).map (fun r => r ++ c :: b) := by
  cases ha : stripRune table a with
  | some r =>
    obtain ⟨e, he, rfl⟩ := (stripRune_eq_some_iff table hc a r).1 ha
    rw [Option.map_some', stripRune_eq_some_iff table hc]
    exact ⟨e, he, by simp⟩
  | none =>
    rw [Option.map_none', stripRune_eq_none_iff]
    intro e he hp
    rcases List.prefix_or_prefix_of_prefix hp (List.prefix_append a (c :: b)) with h | h
    · exact (stripRune_eq_none_iff table a).1 ha e he h
    · obtain ⟨t, ht⟩ := h
      cases t with
      | nil =>
        rw [List.append_nil] at ht
        exact (stripRune_eq_none_iff table a).1 ha e he (ht ▸ List.prefix_refl _)
      | cons x t =>
        obtain ⟨u, hu⟩ := hp
        rw [← ht, List.append_assoc] at hu
        have hx : x :: (t ++ u) = c :: b := List.append_cancel_left hu
        injection hx with hx _
        exact hsep e he (by rw [← ht, hx]; simp)

theorem trim_sep (table : List GoString) (hc : IsCode table) (c : Nat)
    (hsep : ∀ e ∈ table, c ∉ e) (b : GoString) :
    ∀ (n : Nat) (a : GoString), a.length ≤ n →
      trim table (a ++ c :: b) = trim table a ++ c :: b := by
  intro n
  induction n with
  | zero =>
    intro a hn
    have : a = [] := List.length_eq_zero.1 (by omega)
    subst this
    have h0 : stripRune table [] = none := by
      rw [stripRune_eq_none_iff]
      intro e he hp
      exact hc.1 e he (List.prefix_nil.1 hp)
    have h1 := stripRune_sep table hc c hsep [] b
    rw [h0, Option.map_none'] at h1
    rw [trim_of_none table [] h0, trim_of_none table _ h1]
  | succ n ih =>
    intro a hn
    have h1 := stripRune_sep table hc c hsep a b
    cases ha : stripRune table a with
    | none =>
      rw [ha, Option.map_none'] at h1
      rw [trim_of_none table a ha, trim_of_none table _ h1]
    | some r =>
      rw [ha, Option.map_some'] at h1
      have hlt := stripRune_length table hc a r ha
      rw [trim_of_some table hc a r ha, trim_of_some table hc _ _ h1]
      exact ih r (by omega)

theorem spaceRunes_code : IsCode spaceRunes := by
  have h1 : ∀ e ∈ spaceRunes, e ≠ [] := by decide
  have h2 : ∀ e ∈ spaceRunes, ∀ e' ∈ spaceRunes, e.isPrefixOf e' = true → e = e' := by decide
  exact ⟨h1, fun e he e' he' hp => h2 e he e' he' (List.isPrefixOf_iff_prefix.2 hp)⟩

theorem revRunes_code : IsCode revRunes := by
  have h1 : ∀ e ∈ revRunes, e ≠ [] := by decide
  have h2 : ∀ e ∈ revRunes, ∀ e' ∈ revRunes, e.isPrefixOf e' = true → e = e' := by decide
  exact ⟨h1, fun e he e' he' hp => h2 e he e' he' (List.isPrefixOf_iff_prefix.2 hp)⟩

theorem eq_not_mem_spaceRunes : ∀ e ∈ spaceRunes, 0x3D ∉ e := by decide

theorem eq_not_mem_revRunes : ∀ e ∈ revRunes, 0x3D ∉ e := by decide

theorem mem_revRunes (e : GoString) : e ∈ revRunes ↔ e.reverse ∈ spaceRunes := by
  unfold revRunes
  rw [List.mem_map]
  constructor
  · rintro ⟨x, hx, rfl⟩
    simpa using hx
  · intro h
    exact ⟨e.reverse, h, by simp⟩

theorem TrimLeft_eq (s : GoString) : TrimLeft s = trim spaceRunes s := rfl

theorem TrimRight_eq (s : GoString) : TrimRight s = (trim revRunes s.reverse).reverse := by
  unfold TrimRight trim revRunes
  rw [List.length_reverse]

theorem onlySpace_reverse_flatten (ws : List GoString) (hws : ∀ w ∈ ws, w ∈ revRunes) :
    OnlySpace ws.flatten.reverse := by
  refine ⟨(ws.map List.reverse).reverse, ?_, ?_⟩
  · intro w hw
    rw [List.mem_reverse, List.mem_map] at hw
    obtain ⟨x, hx, rfl⟩ := hw
    exact (mem_revRunes x).1 (hws x hx)
  · rw [List.reverse_flatten]

theorem flatten_reverse_revRunes (ws : List GoString) (hws : ∀ w ∈ ws, w ∈ spaceRunes) :
    ∃ ws' : List GoString, (∀ w ∈ ws', w ∈ revRunes) ∧ ws.flatten.reverse = ws'.flatten := by
  refine ⟨(ws.map List.reverse).reverse, ?_, List.reverse_flatten _⟩
  intro w hw
  rw [List.mem_reverse, List.mem_map] at hw
  obtain ⟨x, hx, rfl⟩ := hw
  rw [mem_revRunes, List.reverse_reverse]
  exact hws x hx

theorem TrimLeft_clean (s : GoString) : ∀ e ∈ spaceRunes, ¬ e <+: TrimLeft s :=
  (stripRune_eq_none_iff spaceRunes _).1 (trim_clean spaceRunes spaceRunes_code s)

theorem TrimLeft_decomp (s : GoString) : ∃ p, OnlySpace p ∧ s = p ++ TrimLeft s := by
  obtain ⟨ws, hws, h⟩ := trim_decomp spaceRunes spaceRunes_code s
  exact ⟨ws.flatten, ⟨ws, hws, rfl⟩, h⟩

theorem TrimLeft_of_clean (s : GoString) (h : ∀ e ∈ spaceRunes, ¬ e <+: s) : TrimLeft s = s :=
  trim_of_none spaceRunes s ((stripRune_eq_none_iff spaceRunes s).2 h)

theorem TrimLeft_blank_append (p y : GoString) (hp : OnlySpace p) :
    TrimLeft (p ++ y) = TrimLeft y := by
  obtain ⟨ws, hws, rfl⟩ := hp
  exact trim_join_append spaceRunes spaceRunes_code ws hws y

theorem TrimLeft_sep (a b : GoString) : TrimLeft (a ++ 0x3D :: b) = TrimLeft a ++ 0x3D :: b :=
  trim_sep spaceRunes spaceRunes_code 0x3D eq_not_mem_spaceRunes b a.length a (le_refl _)

theorem TrimRight_clean (s : GoString) : ∀ e ∈ spaceRunes, ¬ e <:+ TrimRight s := by
  intro e he hs
  have h := (stripRune_eq_none_iff revRunes _).1 (trim_clean revRunes revRunes_code s.reverse)
    e.reverse ((mem_revRunes _).2 (by simpa using he))
  apply h
  rw [TrimRight_eq] at hs
  have := List.reverse_prefix.2 hs
  simpa using this

theorem TrimRight_decomp (s : GoString) : ∃ p, OnlySpace p ∧ s = TrimRight s ++ p := by
  obtain ⟨ws, hws, h⟩ := trim_decomp revRunes revRunes_code s.reverse
  refine ⟨ws.flatten.reverse, onlySpace_reverse_flatten ws hws, ?_⟩
  rw [TrimRight_eq, ← List.reverse_append, ← h, List.reverse_reverse]

theorem TrimRight_of_clean (s : GoString) (h : ∀ e ∈ spaceRunes, ¬ e <:+ s) : TrimRight s = s := by
  rw [TrimRight_eq, trim_of_none revRunes s.reverse, List.reverse_reverse]
  rw [stripRune_eq_none_iff]
  intro e he hp
  apply h e.reverse ((mem_revRunes e).1 he)
  exact List.reverse_prefix.1 (by simpa using hp)

theorem TrimRight_append_blank (y p : GoString) (hp : OnlySpace p) :
    TrimRight (y ++ p) = TrimRight y := by
  obtain ⟨ws, hws, rfl⟩ := hp
  obtain ⟨ws', hws', hrev⟩ := flatten_reverse_revRunes ws hws
  rw [TrimRight_eq, TrimRight_eq, List.reverse_append, hrev,
    trim_join_append revRunes revRunes_code ws' hws']

theorem TrimRight_sep (a b : GoString) : TrimRight (a ++ 0x3D :: b) = a ++ 0x3D :: TrimRight b := by
  rw [TrimRight_eq, TrimRight_eq]
  have : (a ++ 0x3D :: b).reverse = b.reverse ++ 0x3D :: a.reverse := by simp
  rw [this, trim_sep revRunes revRunes_code 0x3D eq_not_mem_revRunes a.reverse b.reverse.length
    b.reverse (le_refl _)]
  simp

theorem spaceRunes_length_le : ∀ e ∈ spaceRunes, e.length ≤ 3 := by decide

/-- No proper beginning of a white space rune ends a white space rune, or the converse. -/
theorem spaceRunes_no_overlap :
    ∀ e' ∈ spaceRunes, ∀ e ∈ spaceRunes, ∀ k < 3, 0 < k → k < e'.length →
      (e'.take k).isSuffixOf e = false ∧ e.isSuffixOf (e'.take k) = false := by decide

theorem onlySpace_nil : OnlySpace [] := ⟨[], by simp, rfl⟩

theorem onlySpace_append (p q : GoString) (hp : OnlySpace p) (hq : OnlySpace q) :
    OnlySpace (p ++ q) := by
  obtain ⟨ws, hws, rfl⟩ := hp
  obtain ⟨ws', hws', rfl⟩ := hq
  refine ⟨ws ++ ws', ?_, by simp⟩
  intro w hw
  rcases List.mem_append.1 hw with h | h
  · exact hws w h
  · exact hws' w h

theorem onlySpace_head (y : GoString) (hy : OnlySpace y) (hne : y ≠ []) :
    ∃ e ∈ spaceRunes, e <+: y := by
  obtain ⟨ws, hws, rfl⟩ := hy
  cases ws with
  | nil => exact absurd rfl hne
  | cons w ws =>
    exact ⟨w, hws w (List.mem_cons_self _ _), by rw [List.flatten_cons]; exact List.prefix_append _ _⟩

theorem onlySpace_last (p : GoString) (hp : OnlySpace p) (hne : p ≠ []) :
    ∃ p' e, e ∈ spaceRunes ∧ p = p' ++ e := by
  obtain ⟨ws, hws, rfl⟩ := hp
  rcases List.eq_nil_or_concat ws with h | ⟨L, e, h⟩
  · subst h
    exact absurd rfl hne
  · subst h
    refine ⟨L.flatten, e, hws e (by simp), ?_⟩
    rw [List.concat_eq_append, List.flatten_append]
    simp

theorem eq_not_mem_onlySpace (p : GoString) (hp : OnlySpace p) : 0x3D ∉ p := by
  obtain ⟨ws, hws, rfl⟩ := hp
  intro h
  rw [List.mem_flatten] at h
  obtain ⟨w, hw, hmem⟩ := h
  exact eq_not_mem_spaceRunes w (hws w hw) hmem

/-- A run of white space runes put before a non-empty string that ends with no rune
gives a string that ends with no rune. -/
theorem tailClean_blank_append (p z : GoString) (hp : OnlySpace p) (hz : z ≠ [])
    (hclean : ∀ e ∈ spaceRunes, ¬ e <:+ z) : ∀ e ∈ spaceRunes, ¬ e <:+ p ++ z := by
  intro e' he' hs
  rcases List.suffix_or_suffix_of_suffix hs (List.suffix_append p z) with h | h
  · exact hclean e' he' h
  · obtain ⟨p', hp'⟩ := h
    have hp'ne : p' ≠ [] := by
      intro h0
      subst h0
      exact hclean e' he' (by rw [← hp']; exact List.suffix_refl _)
    obtain ⟨q, hq⟩ := hs
    rw [← hp', ← List.append_assoc] at hq
    have hqp : q ++ p' = p := List.append_cancel_right hq
    have hpne : p ≠ [] := by
      intro h0
      rw [h0] at hqp
      exact hp'ne (List.append_eq_nil.1 hqp).2
    obtain ⟨p0, e, he, hpe⟩ := onlySpace_last p hp hpne
    have h1 : p' <:+ p0 ++ e := ⟨q, by rw [hqp, hpe]⟩
    have hk : p' = e'.take p'.length := by rw [← hp']; simp
    have hlen : p'.length < e'.length := by
      rw [← hp']
      have := List.length_pos.2 hz
      simp; omega
    have hpos : 0 < p'.length := List.length_pos.2 hp'ne
    have h3 := spaceRunes_length_le e' he'
    have hno := spaceRunes_no_overlap e' he' e he p'.length (by omega) hpos hlen
    rw [← hk] at hno
    rcases List.suffix_or_suffix_of_suffix h1 (List.suffix_append p0 e) with h | h
    · have := List.isSuffixOf_iff_suffix.2 h
      rw [hno.1] at this
      exact Bool.noConfusion this
    · have := List.isSuffixOf_iff_suffix.2 h
      rw [hno.2] at this
      exact Bool.noConfusion this

theorem TrimRight_nil : TrimRight [] = [] := rfl

theorem TrimLeft_nil : TrimLeft [] = [] := rfl

theorem TrimSpace_nil : TrimSpace [] = [] := rfl

theorem TrimSpace_TrimLeft (s : GoString) : TrimSpace (TrimLeft s) = TrimSpace s := by
  unfold TrimSpace
  have h : TrimLeft (TrimLeft s) = TrimLeft s := trim_idem spaceRunes spaceRunes_code s
  rw [h]

/-- A string whose leading white space is removed and that is white space only is empty. -/
theorem TrimLeft_eq_nil_of_onlySpace (s : GoString) (h : OnlySpace (TrimLeft s)) :
    TrimLeft s = [] := by
  by_contra hne
  obtain ⟨e, he, hpre⟩ := onlySpace_head _ h hne
  exact TrimLeft_clean s e he hpre

theorem TrimRight_onlySpace (p : GoString) (hp : OnlySpace p) : TrimRight p = [] := by
  have := TrimRight_append_blank [] p hp
  rw [List.nil_append] at this
  rw [this, TrimRight_nil]

theorem TrimLeft_onlySpace (p : GoString) (hp : OnlySpace p) : TrimLeft p = [] := by
  have := TrimLeft_blank_append p [] hp
  rw [List.append_nil] at this
  rw [this, TrimLeft_nil]

/-- Function `TrimSpace` returns the empty string exactly for white space only. -/
theorem TrimSpace_eq_nil_iff (s : GoString) : TrimSpace s = [] ↔ OnlySpace s := by
  constructor
  · intro h
    obtain ⟨p, hp, hs⟩ := TrimLeft_decomp s
    obtain ⟨q, hq, hy⟩ := TrimRight_decomp (TrimLeft s)
    have hz : TrimRight (TrimLeft s) = [] := h
    rw [hz, List.nil_append] at hy
    have hy0 := TrimLeft_eq_nil_of_onlySpace s (hy ▸ hq)
    rw [hy0, List.append_nil] at hs
    exact hs ▸ hp
  · intro h
    unfold TrimSpace
    rw [TrimLeft_onlySpace s h, TrimRight_nil]

/-- Trailing white space removed first does not change the result of `TrimSpace`. -/
theorem TrimSpace_TrimRight (s : GoString) : TrimSpace (TrimRight s) = TrimSpace s := by
  obtain ⟨p, hp, hs⟩ := TrimLeft_decomp s
  obtain ⟨q, hq, hy⟩ := TrimRight_decomp (TrimLeft s)
  by_cases hz : TrimRight (TrimLeft s) = []
  · have hs0 : OnlySpace s := (TrimSpace_eq_nil_iff s).1 hz
    rw [TrimRight_onlySpace s hs0, TrimSpace_nil]
    exact hz.symm
  · have htail := TrimRight_clean (TrimLeft s)
    have hhead : ∀ e ∈ spaceRunes, ¬ e <+: TrimRight (TrimLeft s) := by
      intro e he hpre
      apply TrimLeft_clean s e he
      rw [hy]
      exact hpre.trans (List.prefix_append _ _)
    have hsz : s = (p ++ TrimRight (TrimLeft s)) ++ q := by
      rw [List.append_assoc, ← hy]
      exact hs
    have h1 : TrimRight s = p ++ TrimRight (TrimLeft s) := by
      conv_lhs => rw [hsz]
      rw [TrimRight_append_blank _ q hq]
      exact TrimRight_of_clean _ (tailClean_blank_append p _ hp hz htail)
    show TrimRight (TrimLeft (TrimRight s)) = TrimRight (TrimLeft s)
    rw [h1, TrimLeft_blank_append p _ hp, TrimLeft_of_clean _ hhead, TrimRight_of_clean _ htail]

/-! ## Parsing of the annotation -/

theorem split_at_eq (raw : GoString) (h : 0x3D ∈ raw) :
    raw = beforeEq raw ++ 0x3D :: afterEq raw ∧ 0x3D ∉ beforeEq raw := by
  have hnot : 0x3D ∉ beforeEq raw := by
    intro hm
    have := List.mem_takeWhile_imp hm
    simp at this
  refine ⟨?_, hnot⟩
  have hsplit := (List.takeWhile_append_dropWhile (fun b => b != 0x3D) raw).symm
  cases hd : raw.dropWhile (fun b => b != 0x3D) with
  | nil =>
    rw [hd, List.append_nil] at hsplit
    have hm : 0x3D ∈ raw.takeWhile (fun b => b != 0x3D) := by
      rw [← hsplit]
      exact h
    exact absurd hm hnot
  | cons c r =>
    have hc := List.head_dropWhile_not (fun b => b != 0x3D) raw (by rw [hd]; simp)
    simp only [hd, List.head_cons, bne_iff_ne, ne_eq, Bool.not_eq_true, bne_eq_false_iff_eq] at hc
    have hc' : c = 0x3D := by simpa using hc
    unfold afterEq
    rw [hd, ← hc']
    conv_lhs => rw [hsplit, hd]
    rfl

theorem SplitN_sep (x w : GoString) (hx : 0x3D ∉ x) : SplitN 0x3D 2 (x ++ 0x3D :: w) = [x, w] := by
  have htw : (x ++ 0x3D :: w).takeWhile (fun b => b != 0x3D) = x := by
    rw [List.takeWhile_append_of_pos]
    · simp
    · intro b hb
      have : b ≠ 0x3D := fun h0 => hx (h0 ▸ hb)
      simpa using this
  have hdw : (x ++ 0x3D :: w).dropWhile (fun b => b != 0x3D) = 0x3D :: w := by
    rw [List.dropWhile_append_of_pos]
    · simp
    · intro b hb
      have : b ≠ 0x3D := fun h0 => hx (h0 ▸ hb)
      simpa using this
  simp only [SplitN, List.span_eq_take_drop, htw, hdw]

theorem SplitN_no_sep (v : GoString) (h : 0x3D ∉ v) : SplitN 0x3D 2 v = [v] := by
  have hdw : v.dropWhile (fun b => b != 0x3D) = [] := by
    rw [List.dropWhile_eq_nil_iff]
    intro b hb
    have : b ≠ 0x3D := fun h0 => h (h0 ▸ hb)
    simpa using this
  simp only [SplitN, List.span_eq_take_drop, hdw]

theorem TrimSpace_sep (a b : GoString) :
    TrimSpace (a ++ 0x3D :: b) = TrimLeft a ++ 0x3D :: TrimRight b := by
  unfold TrimSpace
  rw [TrimLeft_sep, TrimRight_sep]

theorem not_mem_TrimLeft (a : GoString) (c : Nat) (h : c ∉ a) : c ∉ TrimLeft a := by
  obtain ⟨p, -, hs⟩ := TrimLeft_decomp a
  intro hm
  apply h
  rw [hs]
  exact List.mem_append_right _ hm

theorem not_mem_TrimSpace (s : GoString) (c : Nat) (h : c ∉ s) : c ∉ TrimSpace s := by
  obtain ⟨p, -, hs⟩ := TrimLeft_decomp s
  obtain ⟨q, -, hy⟩ := TrimRight_decomp (TrimLeft s)
  intro hm
  apply h
  rw [hs, hy]
  exact List.mem_append_right _ (List.mem_append_left _ hm)

/-- The two pieces `parseAnnotation` trims when the input holds a `=`. -/
theorem parseAnnotation_with_eq (raw : GoString) (h : 0x3D ∈ raw) :
    parseAnnotation raw =
      if TrimSpace (beforeEq raw) = [] then Except.error AnnotationError.emptyKey
      else Except.ok (TrimSpace (beforeEq raw), TrimSpace (afterEq raw)) := by
  obtain ⟨hsplit, hnot⟩ := split_at_eq raw h
  have hv : TrimSpace raw = TrimLeft (beforeEq raw) ++ 0x3D :: TrimRight (afterEq raw) := by
    conv_lhs => rw [hsplit]
    exact TrimSpace_sep _ _
  have hne : TrimSpace raw ≠ [] := by rw [hv]; simp
  have hparts : SplitN 0x3D 2 (TrimSpace raw) =
      [TrimLeft (beforeEq raw), TrimRight (afterEq raw)] := by
    rw [hv]
    exact SplitN_sep _ _ (not_mem_TrimLeft _ _ hnot)
  unfold parseAnnotation
  simp only [hne, if_false, hparts, TrimSpace_TrimLeft, TrimSpace_TrimRight]

theorem parseAnnotation_without_eq (raw : GoString) (h : 0x3D ∉ raw) :
    parseAnnotation raw =
      if TrimSpace raw = [] then Except.ok ([], []) else Except.error (AnnotationError.invalid raw) := by
  unfold parseAnnotation
  by_cases hv : TrimSpace raw = []
  · simp only [hv, if_true]
  · simp only [hv, if_false, SplitN_no_sep _ (not_mem_TrimSpace raw _ h)]

/-! ## Sample runs -/

set_option maxRecDepth 100000 in
/-- A run of the loop: a transient read error, an undecodable record, a global event
whose patch fails, then the closed error; the record scheduled after it is never read. -/
theorem traceLoop_sample_run :
    traceLoop tracerEvict decodeSample (some "context canceled")
        [{ read := ReadResult.errOther "glitch", k8s := clusterOk [] },
         { read := ReadResult.record [9], k8s := clusterOk [] },
         { read := ReadResult.record [1], k8s := clusterPatchFails [podPlain] },
         { read := ReadResult.errClosed, k8s := clusterOk [] },
         { read := ReadResult.record [1], k8s := clusterOk [podPlain] }] stateNoSink =
      ({ metrics := none,
         calls := [Call.read, Call.read, Call.read,
           Call.incEvent (str "observed") (str "ebpf_capture"), Call.listPods (str "node-1"),
           Call.incEvent (str "identified") (str "pod_identified"),
           Call.annotatePod (str "default") (str "victim") [(str "evict", [])],
           Call.incEvent (str "error") (str "annotation_failed"), Call.read] },
        LoopResult.returned (some "context canceled")) := by
  decide

set_option maxRecDepth 100000 in
/-- A run of the loop that ends with a failed pod listing, and a gated event. -/
theorem traceLoop_sample_listing_failure :
    traceLoop tracerEvict decodeSample (some "context canceled")
        [{ read := ReadResult.record [2], k8s := clusterListFails },
         { read := ReadResult.record [1], k8s := clusterListFails },
         { read := ReadResult.record [1], k8s := clusterOk [podPlain] }] stateNoSink =
      ({ metrics := none,
         calls := [Call.read, Call.incEvent (str "observed") (str "ebpf_capture"),
           Call.incEvent (str "skipped") (str "non_or_ignored_global_oom"), Call.read,
           Call.incEvent (str "observed") (str "ebpf_capture"), Call.listPods (str "node-1")] },
        LoopResult.returned (some "list failed")) := by
  decide

/-- Sample inputs of `parseAnnotation`. -/
theorem parseAnnotation_samples :
    parseAnnotation (str "evict=") = Except.ok (str "evict", []) ∧
      parseAnnotation (str "  evict = a=b ") = Except.ok (str "evict", str "a=b") ∧
      parseAnnotation [] = Except.ok ([], []) ∧
      parseAnnotation (str "evict") = Except.error (AnnotationError.invalid (str "evict")) ∧
      parseAnnotation (str " = x") = Except.error AnnotationError.emptyKey := by
  decide

/-- When the gate is open the iteration lists the pods, and what follows the listing
holds no gate record and at most the calls of the annotation step. -/
theorem processEvent_open (o : OOMTracer) (k8s : K8s) (event : BpfEvent) (s : State)
    (h : ¬ gateClosed o event) :
    ∃ rest, newCalls s (processEvent o k8s event s).1 =
        Call.incEvent eventStageObserved (str "ebpf_capture") :: Call.listPods o.nodeName :: rest ∧
      Call.incEvent eventStageSkipped (str "non_or_ignored_global_oom") ∉ rest := by
  have key := (processEvent_newCalls o k8s event s).2 h
  have hne := labels_ne
  cases hl : k8s.ListPodsOnANode o.nodeName with
  | error err => exact ⟨[], key.1 err hl, by simp⟩
  | ok pods =>
    have key2 := key.2 pods hl
    cases hr : resolveCandidates pods (Int8SliceToStringSlice event.Names) with
    | none => exact ⟨_, key2.1 hr, by simp [hne.2.2.2.1]⟩
    | some id =>
      have key3 := key2.2 id hr
      by_cases hk : o.victimAnnotationKey = []
      · exact ⟨_, key3.1 hk, by simp [hne.2.1]⟩
      · cases ha : (id.Annotations.lookup o.victimAnnotationKey).isSome with
        | true => exact ⟨_, (key3.2 hk).1 ha, by simp [hne.2.1]⟩
        | false =>
          cases hp : k8s.AnnotatePod id.Namespace id.Name
              [(o.victimAnnotationKey, o.victimAnnotationVal)] with
          | some err => exact ⟨_, ((key3.2 hk).2 ha).1 err hp, by simp [hne.2.1, hne.2.2.1]⟩
          | none => exact ⟨_, ((key3.2 hk).2 ha).2 hp, by simp [hne.2.1]⟩

/-- C1. One iteration gates the event (it records `skipped` /
`non_or_ignored_global_oom` and issues neither a `ListPodsOnANode` nor an
`AnnotatePod` call) if and only if `ignoreGlobalOOM` is false and the event's
`GlobalOom` flag is false. In every other case no gate record is made, the pods of
the node are listed, and the candidates are resolved: a failed resolution records
`skipped` / `no_pod_match`, a successful one `identified` / `pod_identified`. -/
theorem gate_iff_not_ignored_and_not_global (o : OOMTracer) (k8s : K8s) (event : BpfEvent)
    (s : State) :
    let cs := newCalls s (processEvent o k8s event s).1
    let gated := Call.incEvent eventStageSkipped (str "non_or_ignored_global_oom")
    ((gated ∈ cs ∧ cs.any Call.isListPods = false ∧ cs.any Call.isAnnotatePod = false) ↔
      (o.ignoreGlobalOOM = false ∧ event.GlobalOom = false)) ∧
    (¬ (o.ignoreGlobalOOM = false ∧ event.GlobalOom = false) →
      gated ∉ cs ∧ Call.listPods o.nodeName ∈ cs ∧
      ∀ pods, k8s.ListPodsOnANode o.nodeName = Except.ok pods →
        (resolveCandidates pods (Int8SliceToStringSlice event.Names) = none →
          Call.incEvent eventStageSkipped (str "no_pod_match") ∈ cs) ∧
        (∀ id, resolveCandidates pods (Int8SliceToStringSlice event.Names) = some id →
          Call.incEvent eventStageIdentified (str "pod_identified") ∈ cs)) := by
  intro cs gated
  have hopen : ¬ gateClosed o event → gated ∉ cs ∧ Call.listPods o.nodeName ∈ cs := by
    intro h
    obtain ⟨rest, hcs, hrest⟩ := processEvent_open o k8s event s h
    have hne := labels_ne
    simp only [cs, gated, hcs]
    refine ⟨?_, by simp⟩
    simp [hrest, hne.1]
  refine ⟨⟨fun hg => ?_, fun hg => ?_⟩, fun hg => ⟨(hopen hg).1, (hopen hg).2, fun pods hl => ?_⟩⟩
  · by_contra hc
    exact (hopen hc).1 hg.1
  · have hcs := (processEvent_newCalls o k8s event s).1 hg
    simp only [cs, gated, hcs]
    simp [Call.isListPods, Call.isAnnotatePod]
  · have key := ((processEvent_newCalls o k8s event s).2 hg).2 pods hl
    refine ⟨fun hr => ?_, fun id hr => ?_⟩
    · simp only [cs, key.1 hr]; simp
    · have key3 := key.2 id hr
      by_cases hk : o.victimAnnotationKey = []
      · simp only [cs, key3.1 hk]; simp
      · cases ha : (id.Annotations.lookup o.victimAnnotationKey).isSome with
        | true => simp only [cs, (key3.2 hk).1 ha]; simp
        | false =>
          cases hp : k8s.AnnotatePod id.Namespace id.Name
              [(o.victimAnnotationKey, o.victimAnnotationVal)] with
          | some err => simp only [cs, ((key3.2 hk).2 ha).1 err hp]; simp
          | none => simp only [cs, ((key3.2 hk).2 ha).2 hp]; simp

/-- C2. If a candidate contains the pod-identifier pattern, its captured token with
underscores replaced by hyphens is the UID of a pod of the snapshot, and every
candidate before it is empty or matches no pod, then the candidate loop returns the
identity (namespace, name, UID, annotations) of the first pod in snapshot order that
has this UID. -/
theorem resolve_returns_first_pod_with_uid (pods : List Pod) (before after : List GoString)
    (c tok : GoString) (hc : IsPodCapture c tok)
    (hp : ∃ pod ∈ pods, pod.UID = replaceUnderscores tok)
    (hb : ∀ x ∈ before, x = [] ∨ LookupPod x pods = none) :
    ∃ pre pod post, pods = pre ++ pod :: post ∧ pod.UID = replaceUnderscores tok ∧
      (∀ q ∈ pre, q.UID ≠ replaceUnderscores tok) ∧
      resolveCandidates pods (before ++ c :: after) =
        some { Namespace := pod.Namespace, Name := pod.Name, UID := pod.UID,
               Annotations := pod.Annotations } := by
  have hm := (podPatternSubmatch_eq_some_iff c tok).2 hc
  have hne := podPatternSubmatch_ne_nil c tok hm
  obtain ⟨p0, hp0, hu0⟩ := hp
  cases hf : pods.find? (fun pod => pod.UID == replaceUnderscores tok) with
  | none =>
    rw [List.find?_eq_none] at hf
    exact absurd (by simpa using hu0) (hf p0 hp0)
  | some pod =>
    obtain ⟨hu, pre, post, hpods, hpre⟩ := List.find?_eq_some.1 hf
    refine ⟨pre, pod, post, hpods, by simpa using hu, fun q hq => by simpa using hpre q hq, ?_⟩
    rw [resolveCandidates_skip pods before _ hb, resolveCandidates]
    simp [hne, LookupPod_pod c tok pods hm, hf, Pod.toID]

/-- C2, witness: the candidates `["pod1234_5678-abcd"]` and a pod with the UID `1234-5678-abcd`. -/
theorem resolve_returns_first_pod_with_uid_witness :
    ∃ pre pod post, [podPlain] = pre ++ pod :: post ∧
      pod.UID = replaceUnderscores (str "1234_5678-abcd") ∧
      (∀ q ∈ pre, q.UID ≠ replaceUnderscores (str "1234_5678-abcd")) ∧
      resolveCandidates [podPlain] ([] ++ str "pod1234_5678-abcd" :: []) =
        some { Namespace := pod.Namespace, Name := pod.Name, UID := pod.UID,
               Annotations := pod.Annotations } :=
  resolve_returns_first_pod_with_uid [podPlain] [] [] (str "pod1234_5678-abcd")
    (str "1234_5678-abcd") ((podPatternSubmatch_eq_some_iff _ _).1 (by decide))
    ⟨podPlain, by simp, by decide⟩ (by simp)

theorem hasContainer_iff (target : GoString) (pod : Pod) :
    pod.hasContainer target = true ↔ pod.HasHexId target := by
  simp [Pod.hasContainer, Pod.HasHexId, List.any_eq_true, cidPatternFind_eq_some_iff]

/-- C3, amended. For a candidate that does not match the pod-identifier pattern and
whose leftmost 64-character lowercase hexadecimal substring is `target`, `LookupPod`
returns the identity of the first pod in snapshot order that has a container status
(regular, init or ephemeral) whose container id has `target` as its leftmost
64-character lowercase hexadecimal substring, and none when no pod has one. -/
theorem lookupPod_by_container_id (s target : GoString) (pods : List Pod)
    (hpod : ¬ ∃ a c r, s = a ++ podBytes ++ c :: r ∧ isPodIdByte c = true)
    (hcid : IsLeftmostHex64 s target) :
    (∃ pre pod post, pods = pre ++ pod :: post ∧ pod.HasHexId target ∧
        (∀ q ∈ pre, ¬ q.HasHexId target) ∧
        LookupPod s pods = some { Namespace := pod.Namespace, Name := pod.Name, UID := pod.UID,
                                  Annotations := pod.Annotations }) ∨
      ((∀ q ∈ pods, ¬ q.HasHexId target) ∧ LookupPod s pods = none) := by
  have h1 := (podPatternSubmatch_eq_none_iff s).2 hpod
  have h2 := (cidPatternFind_eq_some_iff s target).2 hcid
  rw [LookupPod_cid s target pods h1 h2]
  cases hf : pods.find? (fun pod => pod.hasContainer target) with
  | none =>
    right
    rw [List.find?_eq_none] at hf
    exact ⟨fun q hq hh => hf q hq ((hasContainer_iff target q).2 hh), rfl⟩
  | some pod =>
    left
    obtain ⟨hu, pre, post, hpods, hpre⟩ := List.find?_eq_some.1 hf
    refine ⟨pre, pod, post, hpods, (hasContainer_iff target pod).1 hu, fun q hq hh => ?_, rfl⟩
    have := hpre q hq
    rw [(hasContainer_iff target q).2 hh] at this
    simp at this

set_option maxRecDepth 100000 in
/-- C3, witness: the candidate `cri-containerd-` followed by `hexA` and `.scope`, and a
snapshot whose second pod has `hexA` as the container id of an init container. -/
theorem lookupPod_by_container_id_witness :
    (∃ pre pod post, [podPlain, podInit] = pre ++ pod :: post ∧ pod.HasHexId hexA ∧
        (∀ q ∈ pre, ¬ q.HasHexId hexA) ∧
        LookupPod (str "cri-containerd-" ++ hexA ++ str ".scope") [podPlain, podInit] =
          some { Namespace := pod.Namespace, Name := pod.Name, UID := pod.UID,
                 Annotations := pod.Annotations }) ∨
      ((∀ q ∈ [podPlain, podInit], ¬ q.HasHexId hexA) ∧
        LookupPod (str "cri-containerd-" ++ hexA ++ str ".scope") [podPlain, podInit] = none) :=
  lookupPod_by_container_id (str "cri-containerd-" ++ hexA ++ str ".scope") hexA
    [podPlain, podInit] ((podPatternSubmatch_eq_none_iff _).1 (by decide))
    ((cidPatternFind_eq_some_iff _ _).1 (by decide))

set_option maxRecDepth 100000 in
/-- C3, counterexample to the claim as stated. The container id of `podTwoRuns` is
`docker://`, `hexA`, `/`, `hexB`: the hex id that ends it is `hexB`, the leftmost one
is `hexA`. For the candidate `hexB` the pod has a status whose trailing hex id
equals the candidate's hex substring, yet `LookupPod` returns none; for the
candidate `hexA` no status has that trailing hex id, yet `LookupPod` returns the pod. -/
theorem lookupPod_trailing_hex_id_counterexample :
    podPatternSubmatch hexB = none ∧ cidPatternFind hexB = some hexB ∧
      podTwoRuns.allStatuses.map (fun status => trailingHexId status.ContainerID) = [some hexB] ∧
      LookupPod hexB [podTwoRuns] = none ∧
      podPatternSubmatch hexA = none ∧ cidPatternFind hexA = some hexA ∧
      LookupPod hexA [podTwoRuns] = some podTwoRuns.toID := by
  decide

/-- C4. For an event that passes the gate and resolves to the identity `id`, the
iteration issues exactly one `AnnotatePod` call, with the payload `{key: value}`, when
the configured key is non-empty and is not a key of the annotations of `id`, and none
otherwise. After a successful call the last record is `marked` /
`annotation_applied`; when the key is present it is `skipped` / `annotation_exists`. -/
theorem annotate_once_iff_key_absent (o : OOMTracer) (k8s : K8s) (event : BpfEvent) (s : State)
    (pods : List Pod) (id : ID)
    (hgate : o.ignoreGlobalOOM = true ∨ event.GlobalOom = true)
    (hl : k8s.ListPodsOnANode o.nodeName = Except.ok pods)
    (hr : resolveCandidates pods (Int8SliceToStringSlice event.Names) = some id) :
    let cs := newCalls s (processEvent o k8s event s).1
    let patch := Call.annotatePod id.Namespace id.Name
      [(o.victimAnnotationKey, o.victimAnnotationVal)]
    (o.victimAnnotationKey ≠ [] ∧ id.Annotations.lookup o.victimAnnotationKey = none →
      cs.filter Call.isAnnotatePod = [patch]) ∧
    (¬ (o.victimAnnotationKey ≠ [] ∧ id.Annotations.lookup o.victimAnnotationKey = none) →
      cs.filter Call.isAnnotatePod = []) ∧
    (o.victimAnnotationKey ≠ [] → id.Annotations.lookup o.victimAnnotationKey = none →
      k8s.AnnotatePod id.Namespace id.Name [(o.victimAnnotationKey, o.victimAnnotationVal)] = none →
      cs.getLast? = some (Call.incMarkedVictim victimStageMarked (str "annotation_applied"))) ∧
    (o.victimAnnotationKey ≠ [] → id.Annotations.lookup o.victimAnnotationKey ≠ none →
      cs.getLast? = some (Call.incMarkedVictim victimStageSkipped (str "annotation_exists"))) := by
  intro cs patch
  have hg := gateOpen_of o event hgate
  have key := (((processEvent_newCalls o k8s event s).2 hg).2 pods hl).2 id hr
  refine ⟨fun ⟨hk, ha⟩ => ?_, fun hn => ?_, fun hk ha hp => ?_, fun hk ha => ?_⟩
  · have ha' := (isSome_eq_false_iff_none _).2 ha
    cases hp : k8s.AnnotatePod id.Namespace id.Name
        [(o.victimAnnotationKey, o.victimAnnotationVal)] with
    | some err =>
      simp only [cs, ((key.2 hk).2 ha').1 err hp]
      simp [Call.isAnnotatePod, List.filter, patch]
    | none =>
      simp only [cs, ((key.2 hk).2 ha').2 hp]
      simp [Call.isAnnotatePod, List.filter, patch]
  · by_cases hk : o.victimAnnotationKey = []
    · simp only [cs, key.1 hk]
      simp [Call.isAnnotatePod, List.filter]
    · have ha : (id.Annotations.lookup o.victimAnnotationKey).isSome = true := by
        cases hx : id.Annotations.lookup o.victimAnnotationKey with
        | none => exact absurd ⟨hk, hx⟩ hn
        | some v => rfl
      simp only [cs, (key.2 hk).1 ha]
      simp [Call.isAnnotatePod, List.filter]
  · have ha' := (isSome_eq_false_iff_none _).2 ha
    simp only [cs, ((key.2 hk).2 ha').2 hp]
    rfl
  · have ha' : (id.Annotations.lookup o.victimAnnotationKey).isSome = true := by
      cases hx : id.Annotations.lookup o.victimAnnotationKey with
      | none => exact absurd hx ha
      | some v => rfl
    simp only [cs, (key.2 hk).1 ha']
    rfl

set_option maxRecDepth 100000 in
/-- C4, witness: key `evict`, empty value, the pod with the UID `1234-5678-abcd`. Without
the annotation the iteration issues the one patch `{"evict": ""}` and records
`marked` / `annotation_applied`; with the annotation present it issues no patch
and records `skipped` / `annotation_exists`. -/
theorem annotate_once_iff_key_absent_witness :
    (newCalls stateSink
        (processEvent tracerEvict (clusterOk [podPlain]) eventGlobal stateSink).1).filter
        Call.isAnnotatePod =
        [Call.annotatePod (str "default") (str "victim") [(str "evict", [])]] ∧
      (newCalls stateSink
        (processEvent tracerEvict (clusterOk [podPlain]) eventGlobal stateSink).1).getLast? =
        some (Call.incMarkedVictim victimStageMarked (str "annotation_applied")) ∧
      (newCalls stateSink
        (processEvent tracerEvict (clusterOk [podMarked]) eventGlobal stateSink).1).filter
        Call.isAnnotatePod = [] ∧
      (newCalls stateSink
        (processEvent tracerEvict (clusterOk [podMarked]) eventGlobal stateSink).1).getLast? =
        some (Call.incMarkedVictim victimStageSkipped (str "annotation_exists")) :=
  have h := annotate_once_iff_key_absent tracerEvict (clusterOk [podPlain]) eventGlobal stateSink
    [podPlain] podPlain.toID (Or.inr rfl) rfl (by decide)
  have h' := annotate_once_iff_key_absent tracerEvict (clusterOk [podMarked]) eventGlobal
    stateSink [podMarked] podMarked.toID (Or.inr rfl) rfl (by decide)
  ⟨h.1 ⟨by decide, by decide⟩, h.2.2.1 (by decide) (by decide) rfl,
    h'.2.1 (by decide), h'.2.2.2 (by decide) (by decide)⟩

theorem newCalls_processTwo (o : OOMTracer) (k1 k2 : K8s) (e1 e2 : BpfEvent) (s : State) :
    newCalls s (processTwo o k1 k2 e1 e2 s) =
      newCalls s (processEvent o k1 e1 s).1 ++
        newCalls (processEvent o k1 e1 s).1 (processEvent o k2 e2 (processEvent o k1 e1 s).1).1 := by
  have h1 := processEvent_extends o k1 e1 s
  have h2 := processEvent_extends o k2 e2 (processEvent o k1 e1 s).1
  apply newCalls_of_calls
  rw [processTwo, h2]
  conv_lhs => rw [h1]
  rw [List.append_assoc]

/-- Number of `AnnotatePod` calls of one iteration that passes the gate and resolves to `id`. -/
theorem patchCalls_resolved (o : OOMTracer) (k8s : K8s) (event : BpfEvent) (s : State)
    (pods : List Pod) (id : ID) (hg : ¬ gateClosed o event)
    (hl : k8s.ListPodsOnANode o.nodeName = Except.ok pods)
    (hr : resolveCandidates pods (Int8SliceToStringSlice event.Names) = some id) :
    patchCalls (newCalls s (processEvent o k8s event s).1) =
      if o.victimAnnotationKey ≠ [] ∧ id.Annotations.lookup o.victimAnnotationKey = none then
        [Call.annotatePod id.Namespace id.Name [(o.victimAnnotationKey, o.victimAnnotationVal)]]
      else [] := by
  have key := (((processEvent_newCalls o k8s event s).2 hg).2 pods hl).2 id hr
  by_cases hk : o.victimAnnotationKey = []
  · rw [key.1 hk]
    simp [hk, patchCalls, Call.isAnnotatePod, List.filter]
  · cases hx : id.Annotations.lookup o.victimAnnotationKey with
    | some v =>
      rw [(key.2 hk).1 (by simp [hx])]
      simp [patchCalls, Call.isAnnotatePod, List.filter]
    | none =>
      have ha' := (isSome_eq_false_iff_none _).2 hx
      cases hp : k8s.AnnotatePod id.Namespace id.Name
          [(o.victimAnnotationKey, o.victimAnnotationVal)] with
      | some err =>
        rw [((key.2 hk).2 ha').1 err hp]
        simp [hk, patchCalls, Call.isAnnotatePod, List.filter]
      | none =>
        rw [((key.2 hk).2 ha').2 hp]
        simp [hk, patchCalls, Call.isAnnotatePod, List.filter]

/-- C5, amended. Two events in a row that pass the gate and resolve to pod identities:
each iteration issues at most one `AnnotatePod` call; the two together issue at most
one when the identity resolved by the second event carries the configured key (the
snapshot shows the first patch, or the pod was marked before), and none when both
identities carry it. When both events resolve to one unchanged identity state that
lacks the non-empty key, each iteration issues its own call, two in total. -/
theorem two_events_patch_calls (o : OOMTracer) (k1 k2 : K8s) (e1 e2 : BpfEvent) (s : State)
    (pods1 pods2 : List Pod) (id1 id2 : ID)
    (hg1 : o.ignoreGlobalOOM = true ∨ e1.GlobalOom = true)
    (hg2 : o.ignoreGlobalOOM = true ∨ e2.GlobalOom = true)
    (hl1 : k1.ListPodsOnANode o.nodeName = Except.ok pods1)
    (hl2 : k2.ListPodsOnANode o.nodeName = Except.ok pods2)
    (hr1 : resolveCandidates pods1 (Int8SliceToStringSlice e1.Names) = some id1)
    (hr2 : resolveCandidates pods2 (Int8SliceToStringSlice e2.Names) = some id2) :
    let s1 := (processEvent o k1 e1 s).1
    let s2 := processTwo o k1 k2 e1 e2 s
    (patchCalls (newCalls s s1)).length ≤ 1 ∧ (patchCalls (newCalls s1 s2)).length ≤ 1 ∧
    (id2.Annotations.lookup o.victimAnnotationKey ≠ none →
      (patchCalls (newCalls s s2)).length ≤ 1) ∧
    (id1.Annotations.lookup o.victimAnnotationKey ≠ none →
      id2.Annotations.lookup o.victimAnnotationKey ≠ none → patchCalls (newCalls s s2) = []) ∧
    (id1 = id2 → o.victimAnnotationKey ≠ [] →
      id1.Annotations.lookup o.victimAnnotationKey = none →
      (patchCalls (newCalls s s2)).length = 2) := by
  intro s1 s2
  have p1 := patchCalls_resolved o k1 e1 s pods1 id1 (gateOpen_of o e1 hg1) hl1 hr1
  have p2 := patchCalls_resolved o k2 e2 s1 pods2 id2 (gateOpen_of o e2 hg2) hl2 hr2
  have hsum : patchCalls (newCalls s s2) =
      patchCalls (newCalls s s1) ++ patchCalls (newCalls s1 s2) := by
    show patchCalls (newCalls s (processTwo o k1 k2 e1 e2 s)) = _
    rw [newCalls_processTwo, patchCalls, List.filter_append]
    rfl
  have hs2 : s2 = (processEvent o k2 e2 s1).1 := rfl
  rw [← hs2] at p2
  refine ⟨?_, ?_, fun h2 => ?_, fun h1 h2 => ?_, fun hid hk ha => ?_⟩
  · rw [p1]; split_ifs <;> simp
  · rw [p2]; split_ifs <;> simp
  · rw [hsum, p2, if_neg (fun h => h2 h.2), p1]
    split_ifs <;> simp
  · rw [hsum, p1, p2, if_neg (fun h => h1 h.2), if_neg (fun h => h2 h.2)]
    rfl
  · subst hid
    rw [hsum, p1, p2, if_pos ⟨hk, ha⟩]
    rfl

set_option maxRecDepth 100000 in
/-- C5, witness: the key `evict`; the first event sees the pod without the annotation,
the second sees it marked: one patch call in total. -/
theorem two_events_patch_calls_witness :
    (patchCalls (newCalls stateSink (processTwo tracerEvict (clusterOk [podPlain])
      (clusterOk [podMarked]) eventGlobal eventGlobal stateSink))).length ≤ 1 :=
  (two_events_patch_calls tracerEvict (clusterOk [podPlain]) (clusterOk [podMarked]) eventGlobal
    eventGlobal stateSink [podPlain] [podMarked] podPlain.toID podMarked.toID (Or.inr rfl)
    (Or.inr rfl) rfl rfl (by decide) (by decide)).2.2.1 (by decide)

set_option maxRecDepth 100000 in
/-- C5, counterexample to the claim as stated: the key `evict`, two global events in a
row that both resolve to the same identity state (the pod `1234-5678-abcd` without
the annotation, the snapshot being unchanged): two `AnnotatePod` calls are issued. -/
theorem two_events_same_identity_counterexample :
    resolveCandidates [podPlain] (Int8SliceToStringSlice eventGlobal.Names) = some podPlain.toID ∧
      patchCalls (newCalls stateSink (processTwo tracerEvict (clusterOk [podPlain])
        (clusterOk [podPlain]) eventGlobal eventGlobal stateSink)) =
        [Call.annotatePod (str "default") (str "victim") [(str "evict", [])],
         Call.annotatePod (str "default") (str "victim") [(str "evict", [])]] := by
  decide

/-- C6. The loop returns in exactly two cases. A read that fails with the closed error
returns `ctx.Err()` after that read, whatever reads would follow. A failing
`ListPodsOnANode` returns the listing error. Every other failure continues with the
next read: another read error and a record that fails to decode leave the state as
it was after the read (no listing, no patch, no counter increment), and a failing
`AnnotatePod` records `error` / `annotation_failed` first. The loop is still
running after a sequence of reads exactly when no turn of it is one of the two
stopping cases. -/
theorem loop_stops_in_two_cases (o : OOMTracer) (decode : GoString → Option BpfEvent)
    (ctxErr : Option GoError) (t : Turn) (turns : List Turn) (s : State) :
    (t.read = ReadResult.errClosed →
      traceLoop o decode ctxErr (t :: turns) s =
        (s.call Call.read, LoopResult.returned ctxErr)) ∧
    (∀ raw event err, t.read = ReadResult.record raw → decode raw = some event →
      ¬ (o.ignoreGlobalOOM = false ∧ event.GlobalOom = false) →
      t.k8s.ListPodsOnANode o.nodeName = Except.error err →
      traceLoop o decode ctxErr (t :: turns) s =
        ((((s.call Call.read).incEvent eventStageObserved (str "ebpf_capture")).call
            (Call.listPods o.nodeName)), LoopResult.returned (some err))) ∧
    (∀ err, t.read = ReadResult.errOther err →
      traceLoop o decode ctxErr (t :: turns) s =
        traceLoop o decode ctxErr turns (s.call Call.read)) ∧
    (∀ raw, t.read = ReadResult.record raw → decode raw = none →
      traceLoop o decode ctxErr (t :: turns) s =
        traceLoop o decode ctxErr turns (s.call Call.read)) ∧
    (∀ raw event pods id err, t.read = ReadResult.record raw → decode raw = some event →
      ¬ (o.ignoreGlobalOOM = false ∧ event.GlobalOom = false) →
      t.k8s.ListPodsOnANode o.nodeName = Except.ok pods →
      resolveCandidates pods (Int8SliceToStringSlice event.Names) = some id →
      o.victimAnnotationKey ≠ [] → id.Annotations.lookup o.victimAnnotationKey = none →
      t.k8s.AnnotatePod id.Namespace id.Name
        [(o.victimAnnotationKey, o.victimAnnotationVal)] = some err →
      traceLoop o decode ctxErr (t :: turns) s =
        traceLoop o decode ctxErr turns
          ((((s.call Call.read).identified o).call (Call.annotatePod id.Namespace id.Name
            [(o.victimAnnotationKey, o.victimAnnotationVal)])).incEvent eventStageError
            (str "annotation_failed"))) ∧
    (stops o decode t = true ↔
      t.read = ReadResult.errClosed ∨
        ∃ raw event err, t.read = ReadResult.record raw ∧ decode raw = some event ∧
          ¬ (o.ignoreGlobalOOM = false ∧ event.GlobalOom = false) ∧
          t.k8s.ListPodsOnANode o.nodeName = Except.error err) ∧
    (stops o decode t = true →
      ∃ s' err, traceLoop o decode ctxErr (t :: turns) s = (s', LoopResult.returned err) ∧
        readCount s'.calls = readCount s.calls + 1) ∧
    (stops o decode t = false →
      ∃ s', traceLoop o decode ctxErr (t :: turns) s = traceLoop o decode ctxErr turns s') ∧
    ((traceLoop o decode ctxErr (t :: turns) s).2 = LoopResult.running ↔
      ∀ t' ∈ t :: turns, stops o decode t' = false) := by
  refine ⟨fun hr => traceLoop_closed _ _ _ _ _ _ hr, fun raw event err hr hd hg hl => ?_,
    fun err hr => traceLoop_errOther _ _ _ _ _ _ err hr,
    fun raw hr hd => traceLoop_undecodable _ _ _ _ _ _ raw hr hd,
    fun raw event pods id err hr hd hg hl hres hk ha hp => ?_, stops_iff o decode t,
    fun hst => ?_, fun hst => traceLoop_continues o decode ctxErr t turns s hst,
    traceLoop_running_iff o decode ctxErr (t :: turns) s⟩
  · have hp := processEvent_listError o t.k8s event (s.call Call.read) hg err hl
    rw [traceLoop_ret _ _ _ _ _ _ raw event err hr hd (by rw [hp]), hp]
  · have hp := processEvent_patchError o t.k8s event (s.call Call.read) hg pods id hl hres hk
      ((isSome_eq_false_iff_none _).2 ha) err hp
    rw [traceLoop_next _ _ _ _ _ _ raw event hr hd (by rw [hp]), hp]
  · rcases (stops_iff o decode t).1 hst with hr | ⟨raw, event, err, hr, hd, hg, hl⟩
    · refine ⟨_, _, traceLoop_closed _ _ _ _ _ _ hr, ?_⟩
      simp [readCount, State.call, List.count_append]
    · have hp := processEvent_listError o t.k8s event (s.call Call.read) hg err hl
      refine ⟨_, _, by rw [traceLoop_ret _ _ _ _ _ _ raw event err hr hd (by rw [hp]), hp], ?_⟩
      simp [readCount, State.call, State.incEvent, List.count_append, List.count_cons]

/-- C9. `IncEvent` and `IncMarkedVictim` on a nil sink return it unchanged. One
iteration run with a nil sink issues the same calls (the same `ListPodsOnANode` call,
the same `AnnotatePod` call with its namespace, name and payload) and takes the same
continue-or-return decision as the iteration run with a sink, and so does the loop. -/
theorem nil_sink_does_not_change_behaviour (o : OOMTracer) (k8s : K8s) (event : BpfEvent)
    (decode : GoString → Option BpfEvent) (ctxErr : Option GoError) (turns : List Turn)
    (calls : List Call) (m : Metrics) (stage reason : GoString) :
    IncEvent none stage reason = none ∧ IncMarkedVictim none stage reason = none ∧
    (processEvent o k8s event { metrics := none, calls := calls }).1.calls =
      (processEvent o k8s event { metrics := some m, calls := calls }).1.calls ∧
    (processEvent o k8s event { metrics := none, calls := calls }).2 =
      (processEvent o k8s event { metrics := some m, calls := calls }).2 ∧
    (processEvent o k8s event { metrics := none, calls := calls }).1.metrics = none ∧
    (traceLoop o decode ctxErr turns { metrics := none, calls := calls }).1.calls =
      (traceLoop o decode ctxErr turns { metrics := some m, calls := calls }).1.calls ∧
    (traceLoop o decode ctxErr turns { metrics := none, calls := calls }).2 =
      (traceLoop o decode ctxErr turns { metrics := some m, calls := calls }).2 := by
  have h1 := processEvent_sink_independent o k8s event { metrics := none, calls := calls }
    { metrics := some m, calls := calls } rfl
  have h2 := traceLoop_sink_independent o decode ctxErr turns { metrics := none, calls := calls }
    { metrics := some m, calls := calls } rfl
  exact ⟨rfl, rfl, h1.1, h1.2, processEvent_nil_sink o k8s event _ rfl, h2.1, h2.2⟩

/-- C7. `Int8SliceToString` returns the bytes of the buffer, each `int8` reinterpreted as
an unsigned byte, before the first zero element, or all of them when no element is
zero. A string without NUL that fits the buffer, stored NUL padded, decodes to
itself; a buffer of zeros decodes to the empty string. `Int8SliceToStringSlice`
decodes every slot in the same way, keeping their number and order. -/
theorem int8SliceToString_truncates_at_nul (src : List Int) (n : Nat) (s : GoString)
    (slots : List (List Int)) (hsrc : ∀ v ∈ src, IsInt8 v) (hs : IsBytes s) (hnul : 0 ∉ s)
    (hlen : s.length ≤ n) :
    Int8SliceToString src = (src.takeWhile (fun v => v != 0)).map byte ∧
    (0 ∉ src → Int8SliceToString src = src.map byte) ∧
    (encodeInt8 n s).length = n ∧ (∀ v ∈ encodeInt8 n s, IsInt8 v) ∧
    Int8SliceToString (encodeInt8 n s) = s ∧
    Int8SliceToString (List.replicate n 0) = [] ∧
    Int8SliceToStringSlice slots = slots.map Int8SliceToString ∧
    (Int8SliceToStringSlice slots).length = slots.length ∧
    ∀ i (hi : i < slots.length),
      (Int8SliceToStringSlice slots)[i]? = some (Int8SliceToString (slots.get ⟨i, hi⟩)) := by
  have h1 : Int8SliceToString src = (src.takeWhile (fun v => v != 0)).map byte :=
    takeWhile_map_byte src hsrc
  refine ⟨h1, fun h0 => ?_, ?_, ?_, decode_encodeInt8 n s hs hnul, ?_, rfl, ?_, ?_⟩
  · rw [h1]
    congr 1
    rw [List.takeWhile_eq_self_iff]
    intro v hv
    have : v ≠ 0 := fun hv0 => h0 (hv0 ▸ hv)
    simpa using this
  · simp [encodeInt8]; omega
  · intro v hv
    simp only [encodeInt8, List.mem_append, List.mem_map, List.mem_replicate] at hv
    rcases hv with ⟨b, hb, rfl⟩ | ⟨-, rfl⟩
    · exact isInt8_toInt8 b (hs b hb)
    · simp [IsInt8]
  · cases n with
    | zero => rfl
    | succ k => simp [Int8SliceToString, ByteSliceToString, List.replicate_succ, List.takeWhile, byte]
  · simp [Int8SliceToStringSlice]
  · intro i hi
    simp [Int8SliceToStringSlice, Int8SliceToString, List.getElem?_map, List.getElem?_eq_getElem hi]

/-- C7, witness: the buffer `h i NUL ! NUL`, and the string `pod1` in a slot of 8 bytes. -/
theorem int8SliceToString_truncates_at_nul_witness :
    Int8SliceToString [104, 105, 0, 33, 0] = [104, 105] ∧
      Int8SliceToString (encodeInt8 8 (str "pod1")) = str "pod1" ∧
      Int8SliceToStringSlice [[104, 105, 0, 33, 0], [0, 0, 0], [-1, 33]] = [[104, 105], [], [255, 33]] :=
  have h := int8SliceToString_truncates_at_nul [104, 105, 0, 33, 0] 8 (str "pod1")
    [[104, 105, 0, 33, 0], [0, 0, 0], [-1, 33]] (by decide) (by decide) (by decide) (by decide)
  ⟨h.1.trans (by decide), h.2.2.2.2.1, h.2.2.2.2.2.2.1.trans (by decide)⟩

/-- C8. With a metrics sink present, every terminal outcome of a decoded event (gated, no
pod match, identified only in dry-run, mark applied, mark skipped, patch error) is
recorded by one call that follows the stage records `observed` and `identified`, and
this call raises exactly one labeled counter of the sink by one: the sink `m2` after
the iteration differs from the sink `m1` before the terminal call in that counter only. -/
theorem terminal_outcome_increments_one_counter (o : OOMTracer) (k8s : K8s) (event : BpfEvent)
    (s : State) (m : Metrics) (hm : s.metrics = some m)
    (hreach : (o.ignoreGlobalOOM = false ∧ event.GlobalOom = false) ∨
      ∃ pods, k8s.ListPodsOnANode o.nodeName = Except.ok pods) :
    ∃ out : Outcome, ∃ m1 m2 : Metrics,
      (newCalls s (processEvent o k8s event s).1).filter Call.isMetric =
        out.stageCalls ++ [out.terminalCall] ∧
      out.stageCalls.foldl applyCall (some m) = some m1 ∧
      applyCall (some m1) out.terminalCall = some m2 ∧
      (processEvent o k8s event s).1.metrics = some m2 ∧
      ∀ f st rs, m2.value f st rs = m1.value f st rs + if (f, st, rs) = out.counter then 1 else 0 := by
  have finish : ∀ (out : Outcome) (m1 : Metrics),
      (newCalls s (processEvent o k8s event s).1).filter Call.isMetric =
        out.stageCalls ++ [out.terminalCall] →
      out.stageCalls.foldl applyCall (some m) = some m1 →
      (processEvent o k8s event s).1.metrics = applyCall (some m1) out.terminalCall →
      ∃ out : Outcome, ∃ m1 m2 : Metrics,
        (newCalls s (processEvent o k8s event s).1).filter Call.isMetric =
          out.stageCalls ++ [out.terminalCall] ∧
        out.stageCalls.foldl applyCall (some m) = some m1 ∧
        applyCall (some m1) out.terminalCall = some m2 ∧
        (processEvent o k8s event s).1.metrics = some m2 ∧
        ∀ f st rs, m2.value f st rs =
          m1.value f st rs + if (f, st, rs) = out.counter then 1 else 0 := by
    intro out m1 h1 h2 h3
    obtain ⟨m2, hm2, hb⟩ := terminalCall_bumps out m1
    exact ⟨out, m1, m2, h1, h2, hm2, h3.trans hm2, hb⟩
  by_cases hg : gateClosed o event
  · refine finish Outcome.gated _ ?_ rfl ?_
    · rw [(processEvent_newCalls o k8s event s).1 hg]; rfl
    · rw [processEvent_gated o k8s event s hg]
      simp [State.incEvent, hm]; rfl
  · obtain ⟨pods, hl⟩ := hreach.resolve_left hg
    have key := ((processEvent_newCalls o k8s event s).2 hg).2 pods hl
    cases hr : resolveCandidates pods (Int8SliceToStringSlice event.Names) with
    | none =>
      refine finish Outcome.noPodMatch _ ?_ rfl ?_
      · rw [key.1 hr]; rfl
      · rw [processEvent_noMatch o k8s event s hg pods hl hr]
        simp [State.incEvent, State.call, hm]; rfl
    | some id =>
      have key3 := key.2 id hr
      by_cases hk : o.victimAnnotationKey = []
      · refine finish Outcome.dryRun _ ?_ rfl ?_
        · rw [key3.1 hk]; rfl
        · rw [processEvent_dryRun o k8s event s hg pods id hl hr hk]
          simp [State.identified, State.incEvent, State.call, hm]; rfl
      · cases ha : (id.Annotations.lookup o.victimAnnotationKey).isSome with
        | true =>
          refine finish Outcome.markSkipped _ ?_ rfl ?_
          · rw [(key3.2 hk).1 ha]; rfl
          · rw [processEvent_exists o k8s event s hg pods id hl hr hk ha]
            simp [State.identified, State.incEvent, State.call, State.incMarkedVictim, hm]; rfl
        | false =>
          cases hp : k8s.AnnotatePod id.Namespace id.Name
              [(o.victimAnnotationKey, o.victimAnnotationVal)] with
          | some err =>
            refine finish Outcome.patchError _ ?_ rfl ?_
            · rw [((key3.2 hk).2 ha).1 err hp]; rfl
            · rw [processEvent_patchError o k8s event s hg pods id hl hr hk ha err hp]
              simp [State.identified, State.incEvent, State.call, hm]; rfl
          | none =>
            refine finish Outcome.markApplied _ ?_ rfl ?_
            · rw [((key3.2 hk).2 ha).2 hp]; rfl
            · rw [processEvent_applied o k8s event s hg pods id hl hr hk ha hp]
              simp [State.identified, State.incEvent, State.call, State.incMarkedVictim, hm]; rfl

set_option maxRecDepth 100000 in
/-- C8, witness: the global event on the unmarked pod, with a sink whose counters are zero. -/
theorem terminal_outcome_increments_one_counter_witness :
    ∃ out : Outcome, ∃ m1 m2 : Metrics,
      (newCalls stateSink
        (processEvent tracerEvict (clusterOk [podPlain]) eventGlobal stateSink).1).filter
        Call.isMetric = out.stageCalls ++ [out.terminalCall] ∧
      out.stageCalls.foldl applyCall (some { events := [], markedVictims := [] }) = some m1 ∧
      applyCall (some m1) out.terminalCall = some m2 ∧
      (processEvent tracerEvict (clusterOk [podPlain]) eventGlobal stateSink).1.metrics = some m2 ∧
      ∀ f st rs, m2.value f st rs = m1.value f st rs + if (f, st, rs) = out.counter then 1 else 0 :=
  terminal_outcome_increments_one_counter tracerEvict (clusterOk [podPlain]) eventGlobal stateSink
    { events := [], markedVictims := [] } rfl (Or.inr ⟨[podPlain], rfl⟩)

/-- C10, amended. With `=` the byte `0x3D`: `parseAnnotation` succeeds with an empty key
and an empty value when the input is empty or only white space; when the input holds
a `=` and the text before the first `=` is not blank, it succeeds with the trimmed
text before the first `=` as key (non-empty) and the trimmed text after it as value;
it fails in the two remaining cases, an input that is not blank and holds no `=`,
and a blank text before the first `=`. So on success an input that is not blank
yields a non-empty key. `NewOOMTracer` fails with the same error, and on success
stores the key and the value in the tracer. -/
theorem parseAnnotation_cases (raw : GoString) :
    (OnlySpace raw → parseAnnotation raw = Except.ok ([], [])) ∧
    (0x3D ∈ raw → ¬ OnlySpace (beforeEq raw) →
      TrimSpace (beforeEq raw) ≠ [] ∧
      parseAnnotation raw = Except.ok (TrimSpace (beforeEq raw), TrimSpace (afterEq raw))) ∧
    (¬ OnlySpace raw → 0x3D ∉ raw →
      parseAnnotation raw = Except.error (AnnotationError.invalid raw)) ∧
    (0x3D ∈ raw → OnlySpace (beforeEq raw) →
      parseAnnotation raw = Except.error AnnotationError.emptyKey) ∧
    (∀ key val, parseAnnotation raw = Except.ok (key, val) → ¬ OnlySpace raw → key ≠ []) ∧
    (∀ nodeName ignoreGlobalOOM key val, parseAnnotation raw = Except.ok (key, val) →
      NewOOMTracer nodeName raw ignoreGlobalOOM =
        Except.ok { nodeName := nodeName, victimAnnotationKey := key,
                    victimAnnotationVal := val, ignoreGlobalOOM := ignoreGlobalOOM }) ∧
    (∀ nodeName ignoreGlobalOOM err, parseAnnotation raw = Except.error err →
      NewOOMTracer nodeName raw ignoreGlobalOOM = Except.error err) := by
  have hblank : OnlySpace raw → parseAnnotation raw = Except.ok ([], []) := by
    intro h
    rw [parseAnnotation_without_eq raw (eq_not_mem_onlySpace raw h),
      if_pos ((TrimSpace_eq_nil_iff raw).2 h)]
  refine ⟨hblank, fun h hk => ?_, fun hb h => ?_, fun h hk => ?_, fun key val hok hb => ?_,
    fun nodeName ign key val hok => ?_, fun nodeName ign err herr => ?_⟩
  · have hne : TrimSpace (beforeEq raw) ≠ [] := fun h0 => hk ((TrimSpace_eq_nil_iff _).1 h0)
    exact ⟨hne, by rw [parseAnnotation_with_eq raw h, if_neg hne]⟩
  · rw [parseAnnotation_without_eq raw h, if_neg (fun h0 => hb ((TrimSpace_eq_nil_iff raw).1 h0))]
  · rw [parseAnnotation_with_eq raw h, if_pos ((TrimSpace_eq_nil_iff _).2 hk)]
  · by_cases h : 0x3D ∈ raw
    · rw [parseAnnotation_with_eq raw h] at hok
      split_ifs at hok with hk
      injection hok with hok
      injection hok with h1 _
      rw [← h1]
      exact hk
    · rw [parseAnnotation_without_eq raw h,
        if_neg (fun h0 => hb ((TrimSpace_eq_nil_iff raw).1 h0))] at hok
      exact Except.noConfusion hok
  · simp only [NewOOMTracer, hok]
  · simp only [NewOOMTracer, herr]

/-- C10, counterexample to the last sentence of the claim as stated: the input of one
space is not empty, `parseAnnotation` succeeds on it, and the key is empty. -/
theorem parseAnnotation_space_counterexample :
    str " " ≠ [] ∧ parseAnnotation (str " ") = Except.ok ([], []) := by
  decide

theorem LookupPod_pod_ignores_statuses (s tok : GoString) (pods : List Pod)
    (h : podPatternSubmatch s = some tok) :
    LookupPod s pods = LookupPod s (pods.map Pod.withoutStatuses) := by
  rw [LookupPod_pod s tok pods h, LookupPod_pod s tok _ h, List.find?_map, Option.map_map]
  rfl

/-- C11. Within one candidate the pod-identifier pattern takes precedence. For a
candidate that matches it, and a snapshot in which no pod has the normalized token
as UID, `LookupPod` returns none, whatever 64-character hexadecimal substring the
candidate holds and whatever container ids the pods have. For such a candidate no
container id is compared: on every snapshot the result is that of the UID search,
and it is the same as on the snapshot with all container statuses removed. -/
theorem pod_pattern_takes_precedence (s tok : GoString) (pods : List Pod)
    (hc : IsPodCapture s tok) (hu : ∀ pod ∈ pods, pod.UID ≠ replaceUnderscores tok) :
    LookupPod s pods = none ∧
    (∀ target, cidPatternFind s = some target →
      (∃ pod ∈ pods, pod.HasHexId target) → LookupPod s pods = none) ∧
    (∀ snapshot : List Pod,
      LookupPod s snapshot =
        (snapshot.find? (fun pod => pod.UID == replaceUnderscores tok)).map Pod.toID ∧
      LookupPod s snapshot = LookupPod s (snapshot.map Pod.withoutStatuses)) := by
  have hm := (podPatternSubmatch_eq_some_iff s tok).2 hc
  have hnone : LookupPod s pods = none := by
    rw [LookupPod_pod s tok pods hm, Option.map_eq_none', List.find?_eq_none]
    intro pod hpod
    simpa using hu pod hpod
  exact ⟨hnone, fun _ _ _ => hnone, fun snapshot =>
    ⟨LookupPod_pod s tok snapshot hm, LookupPod_pod_ignores_statuses s tok snapshot hm⟩⟩

set_option maxRecDepth 100000 in
/-- C11, witness: the candidate `pod12_ab.` followed by `hexA` matches both patterns, and
the init container of `podInit` has the container id `hexA`, yet `LookupPod` returns
none, since no pod has the UID `12-ab`. The hex id alone resolves to `podInit`. -/
theorem pod_pattern_takes_precedence_witness :
    podPatternSubmatch (str "pod12_ab." ++ hexA) = some (str "12_ab") ∧
      cidPatternFind (str "pod12_ab." ++ hexA) = some hexA ∧ podInit.hasContainer hexA = true ∧
      LookupPod (str "pod12_ab." ++ hexA) [podPlain, podInit] = none ∧
      LookupPod hexA [podPlain, podInit] = some podInit.toID :=
  ⟨by decide, by decide, by decide,
    (pod_pattern_takes_precedence (str "pod12_ab." ++ hexA) (str "12_ab") [podPlain, podInit]
      ((podPatternSubmatch_eq_some_iff _ _).1 (by decide)) (by decide)).1, by decide⟩

end OomTracer
